import Mathlib

/-!
Verification development for the PyRouteCH transit journey planner
(files `data_loader.py`, `route_calculator.py`, `main.py`, `formatter.py`,
`models.py`, `analyzer.py`).

The Python sources are shallowly embedded: each Lean definition mirrors one
Python function or method, working over lists and total functions instead of
files and mutable objects.  Strings are modelled through their character
lists; the few Unicode library routines the source calls (`str.casefold`,
`str.strip`, `int(...)`) are modelled char-wise by fragments that agree with
the CPython behaviour on every code point appearing in this file.
Definitions whose doc comment starts with "Modelled from the spec" follow the
specification text instead; they exist only to be compared with the
source-derived definitions.
-/

/-! ## Python string primitives -/

/-- The code points CPython treats as whitespace (`Py_UNICODE_ISSPACE`),
the set stripped by `str.strip()` and by `int()`. -/
def pySpaceCodes : List Nat :=
  [9, 10, 11, 12, 13, 28, 29, 30, 31, 32, 133, 160, 5760, 8192, 8193, 8194,
   8195, 8196, 8197, 8198, 8199, 8200, 8201, 8202, 8232, 8233, 8239, 8287, 12288]

/-- Is `c` Python whitespace? -/
def isPySpace (c : Char) : Bool := decide (c.toNat ∈ pySpaceCodes)

/-- `str.strip()` on a character list: drop whitespace from both ends. -/
def stripChars (cs : List Char) : List Char :=
  ((cs.dropWhile isPySpace).reverse.dropWhile isPySpace).reverse

/-- Python `str.strip()`. -/
def pyStrip (s : String) : String := ⟨stripChars s.data⟩

/-- Helper for `str.split(sep)` with a one-character separator. -/
def splitCharsAux (sep : Char) : List Char → List Char → List (List Char)
  | [], acc => [acc.reverse]
  | c :: cs, acc =>
    if c = sep then acc.reverse :: splitCharsAux sep cs []
    else splitCharsAux sep cs (c :: acc)

/-- Python `s.split(sep)` for a one-character separator `sep`. -/
def pySplit (sep : Char) (s : String) : List String :=
  (splitCharsAux sep s.data []).map fun l => ⟨l⟩

/-- Lexicographic `<` on character lists by code point, as Python compares
strings. -/
def strLtAux : List Char → List Char → Bool
  | [], [] => false
  | [], _ :: _ => true
  | _ :: _, [] => false
  | a :: as, b :: bs => if a = b then strLtAux as bs else decide (a.toNat < b.toNat)

/-- Python string `<`. -/
def pyStrLt (a b : String) : Bool := strLtAux a.data b.data

/-- Python string `<=`. -/
def pyStrLe (a b : String) : Bool := a == b || pyStrLt a b

/-- `needle` is a prefix of `hay` (character lists). -/
def chIsPre : List Char → List Char → Bool
  | [], _ => true
  | _ :: _, [] => false
  | a :: as, b :: bs => a == b && chIsPre as bs

/-- Python `s.startswith(pre)`. -/
def strStartsWith (s pre : String) : Bool := chIsPre pre.data s.data

/-- `needle` occurs as a contiguous sublist of `hay`. -/
def chContains (hay needle : List Char) : Bool :=
  match hay with
  | [] => needle.isEmpty
  | _ :: t => chIsPre needle hay || chContains t needle

/-- Python `needle in hay` on strings (substring containment). -/
def strContains (hay needle : String) : Bool := chContains hay.data needle.data

/-- The decimal digit character for `d % 10`. -/
def digitChar (d : Nat) : Char :=
  if d = 0 then '0' else if d = 1 then '1' else if d = 2 then '2'
  else if d = 3 then '3' else if d = 4 then '4' else if d = 5 then '5'
  else if d = 6 then '6' else if d = 7 then '7' else if d = 8 then '8' else '9'

/-- Is `c` one of the characters 0-9? -/
def isDigitCh (c : Char) : Bool := 48 ≤ c.toNat && c.toNat ≤ 57

/-- Numeric value of a digit character. -/
def digitVal (c : Char) : Nat := c.toNat - 48

/-- Accumulating decimal reader: fails at the first non-digit. -/
def digitsValAcc : Nat → List Char → Option Nat
  | acc, [] => some acc
  | acc, c :: cs =>
    if isDigitCh c then digitsValAcc (acc * 10 + digitVal c) cs else none

/-- Read a nonempty all-digit character list as a natural number. -/
def digitsVal? (cs : List Char) : Option Nat :=
  match cs with
  | [] => none
  | _ :: _ => digitsValAcc 0 cs

/-- First code point of every run of Unicode decimal digits (category Nd):
each run is ten consecutive code points with decimal values 0…9.  Generated
from the Unicode data CPython uses; `int()` accepts digits from any of these
runs. -/
def ndRangeStarts : List Nat :=
  [48, 1632, 1776, 1984, 2406, 2534, 2662, 2790, 2918, 3046, 3174, 3302,
   3430, 3558, 3664, 3792, 3872, 4160, 4240, 6112, 6160, 6470, 6608, 6784,
   6800, 6992, 7088, 7232, 7248, 42528, 43216, 43264, 43472, 43504, 43600,
   44016, 65296, 66720, 68912, 69734, 69872, 69942, 70096, 70384, 70736,
   70864, 71248, 71360, 71472, 71904, 72016, 72784, 73040, 73120, 92768,
   92864, 93008, 120782, 120792, 120802, 120812, 120822, 123200, 123632,
   125264, 130032]

/-- The decimal value of a Unicode decimal digit (category Nd), `none` for
any other character. -/
def decDigit? (c : Char) : Option Nat :=
  match ndRangeStarts.find? (fun s => decide (s ≤ c.toNat) && decide (c.toNat < s + 10)) with
  | some s => some (c.toNat - s)
  | none => none

/-- Accumulating reader over Unicode decimal digits only (the text matched
by a `\d`-field of `strptime` handed to `int()`). -/
def ndDigitsVal (acc : Nat) : List Char → Option Nat
  | [] => some acc
  | c :: cs =>
    match decDigit? c with
    | some d => ndDigitsVal (acc * 10 + d) cs
    | none => none

/-- The digit part of CPython `int()` after the optional sign: Unicode
decimal digits with single underscores allowed between digits (not leading,
not trailing, not doubled). -/
def pyDigitsVal (acc : Nat) : List Char → Option Nat
  | [] => some acc
  | c :: cs =>
    match decDigit? c with
    | some d => pyDigitsVal (acc * 10 + d) cs
    | none =>
      if c = '_' then
        match cs with
        | [] => none
        | c2 :: cs2 =>
          match decDigit? c2 with
          | some d2 => pyDigitsVal (acc * 10 + d2) cs2
          | none => none
      else none

/-- The whole digit sequence of `int()`: nonempty and starting with a
digit. -/
def pyIntDigits? : List Char → Option Nat
  | [] => none
  | c :: cs =>
    match decDigit? c with
    | some d => pyDigitsVal d cs
    | none => none

/-- Decimal digits of `n`, most significant first (`fuel`-structured so that
the definition reduces in the kernel; `fuel = n + 1` always suffices). -/
def natDigitsAux : Nat → Nat → List Char
  | 0, _ => []
  | fuel + 1, n =>
    if n < 10 then [digitChar n]
    else natDigitsAux fuel (n / 10) ++ [digitChar (n % 10)]

/-- Decimal digits of `n`, most significant first. -/
def natDigits (n : Nat) : List Char := natDigitsAux (n + 1) n

/-- Python `str(n)` for a natural number. -/
def natRepr (n : Nat) : String := ⟨natDigits n⟩

/-- Python `str(z)` for an integer. -/
def intRepr (z : Int) : String :=
  if z < 0 then "-" ++ natRepr z.natAbs else natRepr z.natAbs

/-- `int()` after whitespace stripping: an optional ASCII sign, then the
digit sequence. -/
def pyIntOfChars : List Char → Option Int
  | [] => none
  | c :: rest =>
    if c = '-' then (pyIntDigits? rest).map fun n => -(n : Int)
    else if c = '+' then (pyIntDigits? rest).map fun n => (n : Int)
    else (pyIntDigits? (c :: rest)).map fun n => (n : Int)

/-- Python `int(s)`: strip whitespace, optional ASCII sign, then Unicode
decimal digits with single underscores permitted between digits. -/
def pyInt? (s : String) : Option Int := pyIntOfChars (stripChars s.data)

/-- Python `f"{z:02d}"`: sign, then zeros up to total width 2, then digits. -/
def fmt02d (z : Int) : String :=
  let sign : String := if z < 0 then "-" else ""
  let ds : String := natRepr z.natAbs
  let pad : String := if sign.length + ds.length < 2 then "0" else ""
  sign ++ pad ++ ds

/-- The two-digit zero-padded form of a natural number below 100, as the
`MM`/`SS` fields of a clock string are written. -/
def pad2 (n : Nat) : String := if n < 10 then "0" ++ natRepr n else natRepr n

/-- Fragment of Python `str.casefold` on single characters: ASCII letters are
lowered; every other code point used in this development (including U+00B2,
which has no case mapping) is fixed. -/
def casefoldChar (c : Char) : Char :=
  if 65 ≤ c.toNat ∧ c.toNat ≤ 90 then Char.ofNat (c.toNat + 32) else c

/-- Python `s.casefold()` (char-wise fragment, exact on the code points used
here). -/
def pyCasefold (s : String) : String := ⟨s.data.map casefoldChar⟩

/-- Python-style order-preserving deduplication with a `seen` set. -/
def pyUniq {α : Type} [DecidableEq α] (seen : List α) : List α → List α
  | [] => []
  | x :: xs => if x ∈ seen then pyUniq seen xs else x :: pyUniq (x :: seen) xs

/-- Order-preserving deduplication that stops once `remaining` outputs have
been produced (the `while i < len(matches) and len(result) < max_results`
loop of `find_similar_stops`). -/
def pyUniqLimit (remaining : Nat) (seen : List String) : List String → List String
  | [] => []
  | x :: xs =>
    match remaining with
    | 0 => []
    | r + 1 =>
      if x ∈ seen then pyUniqLimit (r + 1) seen xs
      else x :: pyUniqLimit r (x :: seen) xs

/-! ## Dates (`datetime` fragment) -/

/-- A calendar date; `datetime` objects compare lexicographically on
(year, month, day), which is the only use the source makes of them besides
`weekday()` and `strftime("%Y%m%d")`. -/
structure Date where
  year : Nat
  month : Nat
  day : Nat
deriving DecidableEq

/-- `datetime` comparison `a <= b`. -/
def dateLe (a b : Date) : Bool :=
  a.year < b.year ||
  (a.year = b.year && (a.month < b.month ||
    (a.month = b.month && a.day ≤ b.day)))

/-- Gregorian leap-year test. -/
def isLeap (y : Nat) : Bool := (y % 4 = 0 && y % 100 ≠ 0) || y % 400 = 0

/-- Days in a Gregorian month. -/
def daysInMonth (y m : Nat) : Nat :=
  if m = 2 then (if isLeap y then 29 else 28)
  else if m = 4 ∨ m = 6 ∨ m = 9 ∨ m = 11 then 30 else 31

/-- Python `date.weekday()` (Monday = 0 … Sunday = 6) via Zeller's
congruence. -/
def weekdayOf (dt : Date) : Fin 7 :=
  let y := if dt.month < 3 then dt.year - 1 else dt.year
  let m := if dt.month < 3 then dt.month + 12 else dt.month
  let k := y % 100
  let j := y / 100
  let h := (dt.day + 13 * (m + 1) / 5 + k + k / 4 + j / 4 + 5 * j) % 7
  ⟨(h + 5) % 7, by omega⟩

/-! ## `data_loader.py` : GTFSDataLoader -/

/-- One row of the in-memory stops table (`_load_stops` output). -/
structure StopRec where
  stop_id : String
  stop_name : String
  parent_station : String
deriving DecidableEq

/-- `GTFSDataLoader._normalize_name` for string input: strip, then casefold;
empty after stripping maps to the empty string.  (The `value is None` branch
of the source returns `""` as well and is unreachable from the resolution
methods, which always pass strings.) -/
def normalizeName (value : String) : String :=
  let s := pyStrip value
  if s = "" then "" else pyCasefold s

/-- `GTFSDataLoader.find_stop_id`: first stop whose normalized name equals
the normalized query, else first stop whose normalized name starts with it,
else none. -/
def findStopId (stops : List StopRec) (stop_name : String) : Option String :=
  let needle := normalizeName stop_name
  if needle = "" then none
  else
    match stops.find? (fun s => normalizeName s.stop_name == needle) with
    | some s => some s.stop_id
    | none =>
      match stops.find? (fun s => strStartsWith (normalizeName s.stop_name) needle) with
      | some s => some s.stop_id
      | none => none

/-- `GTFSDataLoader.find_matching_stops`: exact matches in file order, then
the other startswith matches sorted, deduplicated by display name. -/
def findMatchingStops (stops : List StopRec) (stop_name : String) : List String :=
  let needle := normalizeName stop_name
  if needle = "" then []
  else
    let exact := (stops.filter fun s => normalizeName s.stop_name == needle).map (·.stop_name)
    let starts := (stops.filter fun s =>
      normalizeName s.stop_name != needle &&
      strStartsWith (normalizeName s.stop_name) needle).map (·.stop_name)
    pyUniq [] (exact ++ List.insertionSort (fun a b => pyStrLe a b = true) starts)

/-- `GTFSDataLoader.find_similar_stops`: display names of stops whose
normalized name contains the normalized query, sorted by display name
(Python `list.sort()`), deduplicated, truncated to `maxResults`. -/
def findSimilarStops (stops : List StopRec) (stop_name : String) (maxResults : Nat) : List String :=
  let needle := normalizeName stop_name
  if needle = "" then []
  else
    let hits := (stops.filter fun s => strContains (normalizeName s.stop_name) needle).map (·.stop_name)
    pyUniqLimit maxResults [] (List.insertionSort (fun a b => pyStrLe a b = true) hits)

/-- The station id chosen by `expand_station_stop_ids`: the stripped parent
(`(self._stop_to_parent.get(stop_id) or "").strip()`) when non-empty, else
the stop id itself. -/
def stationOf (stopToParent : List (String × String)) (sid : String) : String :=
  let parent := pyStrip ((stopToParent.lookup sid).getD "")
  if parent ≠ "" then parent else sid

/-- `GTFSDataLoader.expand_station_stop_ids`: empty input gives `[]`;
otherwise the station id (parent if non-empty, else the stop itself)
followed by the station's children, deduplicated preserving order. -/
def expandStationStopIds (stopToParent : List (String × String))
    (parentToChildren : List (String × List String))
    (stop_id : Option String) : List String :=
  match stop_id with
  | none => []
  | some raw =>
    let sid := pyStrip raw
    if sid = "" then []
    else
      let stationId := stationOf stopToParent sid
      let result := stationId :: (parentToChildren.lookup stationId).getD []
      pyUniq [] result

/-- `GTFSDataLoader._parse_gtfs_time_to_seconds`: split on colons, read up to
three integer fields; every failure yields 0. -/
def parseGtfsTimeToSeconds (value : String) : Int :=
  let s := pyStrip value
  if s = "" then 0
  else
    match pySplit ':' s with
    | p0 :: p1 :: rest =>
      match pyInt? p0, pyInt? p1 with
      | some hours, some minutes =>
        match rest with
        | [] => hours * 3600 + minutes * 60
        | p2 :: _ =>
          if p2 = "" then hours * 3600 + minutes * 60
          else
            match pyInt? p2 with
            | some seconds => hours * 3600 + minutes * 60 + seconds
            | none => 0
      | _, _ => 0
    | _ => 0

/-- One CSV row of `stop_times.txt` as handed to the loader loop; a missing
column reads as `none` (Python `row.get(...)` returning `None`). -/
structure StopTimeRow where
  trip_id : Option String
  stop_id : Option String
  stop_sequence : Option String
  arrival_time : Option String
  departure_time : Option String

/-- The tuple `(stop_sequence, stop_id, arrival_sec, departure_sec)` stored
per trip by `_load_stop_times`. -/
structure StopTimeTup where
  stop_sequence : Int
  stop_id : String
  arrival_sec : Int
  departure_sec : Int
deriving DecidableEq

/-- The per-row body of the `_load_stop_times` loop: `none` when the row is
dropped (`continue`), otherwise the trip id and the stored tuple. -/
def processStopTimeRow (row : StopTimeRow) : Option (String × StopTimeTup) :=
  let tripId := pyStrip (row.trip_id.getD "")
  let stopId := pyStrip (row.stop_id.getD "")
  if tripId = "" ∨ stopId = "" then none
  else
    match pyInt? (pyStrip (row.stop_sequence.getD "")) with
    | none => none
    | some seq =>
      some (tripId,
        ⟨seq, stopId,
         parseGtfsTimeToSeconds (pyStrip (row.arrival_time.getD "")),
         parseGtfsTimeToSeconds (pyStrip (row.departure_time.getD ""))⟩)

/-- One entry of the `GTFSDataLoader.calendar` dict. -/
structure CalEntry where
  start_date : Date
  end_date : Date
  weekdays : Fin 7 → Bool

/-- The exception loop of `GTFSDataLoader.get_valid_services`: walk the
`(service_id, exception_type)` rows in input order; type 1 inserts, type 2
removes if present, other types are ignored. -/
def applyExceptions (valid : Finset String) : List (String × Int) → Finset String
  | [] => valid
  | (sid, exc) :: rest =>
    if exc = 1 then applyExceptions (insert sid valid) rest
    else if exc = 2 then applyExceptions (valid.erase sid) rest
    else applyExceptions valid rest

/-- The regular-calendar part of `get_valid_services`: services whose date
range contains the date and whose weekday flag is set. -/
def regularServices (calendar : List (String × CalEntry)) (d : Date) : Finset String :=
  ((calendar.filter fun p =>
    dateLe p.2.start_date d && dateLe d p.2.end_date &&
    p.2.weekdays (weekdayOf d)).map Prod.fst).toFinset

/-- `GTFSDataLoader.get_valid_services` (without the transparent per-date
memo): regular calendar hits, then the date's exception rows applied
sequentially.  `calendarDates` is keyed here by the `Date` value itself; the
source keys by its `YYYYMMDD` string, an injective image. -/
def getValidServices (calendar : List (String × CalEntry))
    (calendarDates : List (Date × List (String × Int))) (d : Date) : Finset String :=
  applyExceptions (regularServices calendar d) ((calendarDates.lookup d).getD [])

/-! ## `main.py` : PyRouteCH calendar resolution -/

/-- One row of the pandas `calendar` DataFrame of `main.py`. -/
structure CalRow where
  service_id : String
  start_date : Date
  end_date : Date
  weekdays : Fin 7 → Bool

/-- One row of the pandas `calendar_dates` DataFrame of `main.py`. -/
structure CalDateRow where
  service_id : String
  date : Date
  exception_type : Int

/-- `PyRouteCH._get_valid_services`: regular hits unioned with the date's
ADD rows, then the date's REMOVE rows differenced out (set semantics). -/
def mainGetValidServices (calendar : List CalRow) (calendarDates : List CalDateRow)
    (d : Date) : Finset String :=
  let base := ((calendar.filter fun r =>
    dateLe r.start_date d && dateLe d r.end_date &&
    r.weekdays (weekdayOf d)).map (·.service_id)).toFinset
  let adds := ((calendarDates.filter fun r =>
    r.date == d && r.exception_type == 1).map (·.service_id)).toFinset
  let removes := ((calendarDates.filter fun r =>
    r.date == d && r.exception_type == 2).map (·.service_id)).toFinset
  (base ∪ adds) \ removes

/-! ## `models.py` / `route_calculator.py` -/

/-- `models.RouteSegment`. -/
structure RouteSegment where
  trip_id : String
  route_name : String
  departure_stop : String
  departure_stop_name : String
  departure_time : Int
  arrival_stop : String
  arrival_stop_name : String
  arrival_time : Int
  wait_time : Int
deriving DecidableEq

/-- One row of the connections DataFrame built by `_build_connections`:
`(trip_id, dep_stop, arr_stop, dep_time, arr_time, route_name)`. -/
structure Conn where
  trip_id : String
  dep_stop : String
  arr_stop : String
  dep_time : Int
  arr_time : Int
  route_name : String
deriving DecidableEq

/-- `RouteCalculator._Label`.  The algorithm creates labels at exactly two
sites: start sentinels (`prev`, `trip_id`, `dep_stop`, `dep_time` all `None`)
and scan labels (all of them set); the two constructors mirror those two
shapes of the frozen dataclass. -/
inductive Label where
  | start (stop_id : String) (arrival_time : Int)
  | step (stop_id : String) (arrival_time : Int) (prev : Label)
      (trip_id : String) (route_name : String) (dep_stop : String) (dep_time : Int)
deriving DecidableEq

/-- `Label.stop_id`. -/
def Label.stopId : Label → String
  | .start s _ => s
  | .step s _ _ _ _ _ _ => s

/-- `Label.arrival_time`. -/
def Label.arrival : Label → Int
  | .start _ a => a
  | .step _ a _ _ _ _ _ => a

/-- `Label.trip_id` (`none` on sentinels). -/
def Label.tripId? : Label → Option String
  | .start _ _ => none
  | .step _ _ _ t _ _ _ => some t

/-- `Label.dep_stop` (`none` on sentinels). -/
def Label.depStop? : Label → Option String
  | .start _ _ => none
  | .step _ _ _ _ _ ds _ => some ds

/-- `Label.dep_time` (`none` on sentinels). -/
def Label.depTime? : Label → Option Int
  | .start _ _ => none
  | .step _ _ _ _ _ _ dt => some dt

/-- `Label.prev` (`none` on sentinels). -/
def Label.prev? : Label → Option Label
  | .start _ _ => none
  | .step _ _ p _ _ _ _ => some p

/-- The per-stop label store `labels_by_stop` (a defaultdict of lists; a
missing key reads as the empty list). -/
def StMap : Type := String → List Label

/-- The empty label store. -/
def emptyStMap : StMap := fun _ => []

/-- Point update of the label store. -/
def updMap (st : StMap) (k : String) (v : List Label) : StMap :=
  fun s => if s = k then v else st s

/-- The duplicate test of `try_insert_label`: the source compares
`arrival_time`, `trip_id`, `dep_stop`, `dep_time` and `prev` identity (and
neither `stop_id`, equal within one store list, nor `route_name`).  Object
identity is modelled by structural equality of the immutable label chain. -/
def labelDup (existing lab : Label) : Bool :=
  existing.arrival == lab.arrival && existing.tripId? == lab.tripId? &&
  existing.depStop? == lab.depStop? && existing.depTime? == lab.depTime? &&
  existing.prev? == lab.prev?

/-- The sorted-insert loop of `try_insert_label`: insert after every label
whose arrival time is `<=` the new one. -/
def insertSortedLabel (lab : Label) : List Label → List Label
  | [] => [lab]
  | l :: ls =>
    if l.arrival ≤ lab.arrival then l :: insertSortedLabel lab ls
    else lab :: l :: ls

/-- `try_insert_label` acting on one stop's list: returns whether the label
was inserted together with the new list.  With `maxLabels ≥ 1` (the source
uses `max(8, 3 K)`) the pruning test can only fire on a nonempty list, as in
Python where `labels[-1]` is then defined. -/
def tryInsertLabel (maxLabels : Nat) (labels : List Label) (lab : Label) :
    Bool × List Label :=
  match labels.getLast? with
  | some last =>
    if labels.length ≥ maxLabels ∧ last.arrival ≤ lab.arrival then (false, labels)
    else if labels.any (labelDup · lab) then (false, labels)
    else
      let ls := insertSortedLabel lab labels
      (true, if maxLabels < ls.length then ls.dropLast else ls)
  | none =>
    let ls := insertSortedLabel lab labels
    (true, if maxLabels < ls.length then ls.dropLast else ls)

/-- The label built for connection `c` from boarding label `lab` in the scan
loop of `_find_multiple_routes`.  (`route_name or ""` is the identity on
strings, the only values present after `fillna('')`.) -/
def mkStepLabel (c : Conn) (lab : Label) : Label :=
  .step c.arr_stop c.arr_time lab c.trip_id c.route_name c.dep_stop c.dep_time

/-- `recompute_worst_end_arrival`: the K-th smallest arrival over all labels
stored at destination stops, or `none` when fewer than K exist. -/
def recomputeWorst (ends : List String) (maxRoutes : Nat) (st : StMap) : Option Int :=
  let allEnd := ends.flatMap st
  if allEnd.length < maxRoutes then none
  else ((List.insertionSort (fun a b : Label => a.arrival ≤ b.arrival) allEnd).get?
    (maxRoutes - 1)).map Label.arrival

/-- The inner loop over the boarding labels of one connection, walked in
stored (arrival-ascending) order with a break at the first label arriving
after the departure.  The walked list is the store entry at the connection's
departure stop when the loop is entered; state updates go to the arrival
stop's entry.  (When a degenerate connection has equal stops, CPython's live
list iteration could additionally see labels inserted by this very loop; no
such connection appears in this development.) -/
def processLabels (ends : List String) (maxRoutes maxLabels : Nat) (c : Conn) :
    List Label → StMap → Option Int → StMap × Option Int
  | [], st, worst => (st, worst)
  | lab :: rest, st, worst =>
    if c.dep_time < lab.arrival then (st, worst)
    else
      let p := tryInsertLabel maxLabels (st c.arr_stop) (mkStepLabel c lab)
      let st' := updMap st c.arr_stop p.2
      let worst' :=
        if p.1 ∧ c.arr_stop ∈ ends then recomputeWorst ends maxRoutes st' else worst
      processLabels ends maxRoutes maxLabels c rest st' worst'

/-- The connection scan loop of `_find_multiple_routes`: connections in
order, early stop once the departure time passes the K-th best destination
arrival, skipping connections whose departure stop has no labels. -/
def scanConns (ends : List String) (maxRoutes maxLabels : Nat) :
    List Conn → StMap → Option Int → StMap
  | [], st, _ => st
  | c :: rest, st, worst =>
    match worst with
    | some w =>
      if w < c.dep_time then st
      else
        if (st c.dep_stop).isEmpty then scanConns ends maxRoutes maxLabels rest st worst
        else
          let p := processLabels ends maxRoutes maxLabels c (st c.dep_stop) st worst
          scanConns ends maxRoutes maxLabels rest p.1 p.2
    | none =>
      if (st c.dep_stop).isEmpty then scanConns ends maxRoutes maxLabels rest st worst
      else
        let p := processLabels ends maxRoutes maxLabels c (st c.dep_stop) st worst
        scanConns ends maxRoutes maxLabels rest p.1 p.2

/-- The start-label initialization: one sentinel appended per start stop. -/
def initState (startIds : List String) (t : Int) : StMap :=
  startIds.foldl (fun st sid => updMap st sid (st sid ++ [Label.start sid t])) emptyStMap

/-- `effective_start_ids` / `effective_end_ids`: the supplied id list, or the
singleton fallback when it is empty (Python truthiness of `None` / `[]`). -/
def effectiveIds (ids : List String) (deflt : String) : List String :=
  if ids.isEmpty then [deflt] else ids

/-- Gathering of all destination labels after the scan. -/
def gatherEndLabels (ends : List String) (st : StMap) : List Label :=
  ends.flatMap st

/-- One collected connection tuple
`(trip_id, route_name, dep_stop, dep_time, arr_stop, arr_time)` of
`_reconstruct_route_from_label`. -/
structure LinkT where
  trip : String
  route : String
  depStop : String
  depTime : Int
  arrStop : String
  arrTime : Int
deriving DecidableEq

/-- The backwards walk of `_reconstruct_route_from_label`: collect one tuple
per chain step, newest first.  On the inductive chain the `None`-field guard
and the visited-set cycle guard of the source cannot fire (labels are finite
immutable chains), so the walk is total. -/
def collectConnsRev : Label → List LinkT
  | .start _ _ => []
  | .step stop arr prev trip route ds dt =>
    ⟨trip, route, ds, dt, stop, arr⟩ :: collectConnsRev prev

/-- The merge loop of `_reconstruct_route_from_label`: a following link in
the same trip whose board stop and time chain onto the current segment is
absorbed; otherwise the current segment is flushed. -/
def optimizeLinks (cur : LinkT) : List LinkT → List LinkT
  | [] => [cur]
  | l :: rest =>
    if l.trip = cur.trip ∧ cur.arrStop = l.depStop ∧ cur.arrTime ≤ l.depTime then
      optimizeLinks { cur with arrStop := l.arrStop, arrTime := l.arrTime } rest
    else cur :: optimizeLinks l rest

/-- Segment construction with wait times: the wait before a segment is
`max 0 (dep_time - previous arrival)` when the previous segment alights at
this segment's board stop, else 0. -/
def mkSegmentsAux (stopName : String → String) (prev? : Option LinkT) :
    List LinkT → List RouteSegment
  | [] => []
  | l :: ls =>
    let wait : Int :=
      match prev? with
      | some p => if p.arrStop = l.depStop then max 0 (l.depTime - p.arrTime) else 0
      | none => 0
    ⟨l.trip, l.route, l.depStop, stopName l.depStop, l.depTime,
      l.arrStop, stopName l.arrStop, l.arrTime, wait⟩ :: mkSegmentsAux stopName (some l) ls

/-- `RouteCalculator._reconstruct_route_from_label`: `none` for a sentinel
(empty collected chain), otherwise the merged segments in travel order. -/
def reconstructRoute (stopName : String → String) (lab : Label) :
    Option (List RouteSegment) :=
  match (collectConnsRev lab).reverse with
  | [] => none
  | l :: ls => some (mkSegmentsAux stopName none (optimizeLinks l ls))

/-- The deduplication key of `_find_multiple_routes`:
`(departure_stop, arrival_stop, departure_time, arrival_time)` per segment. -/
def routeKey (segs : List RouteSegment) : List (String × String × Int × Int) :=
  segs.map fun s => (s.departure_stop, s.arrival_stop, s.departure_time, s.arrival_time)

/-- The recovery loop of `_find_multiple_routes` over the candidate labels:
skip labels that do not reconstruct, skip routes whose key was seen, stop as
soon as `maxRoutes` routes are collected. -/
def recoverLoop (stopName : String → String) (maxRoutes : Nat) :
    List Label → List (List (String × String × Int × Int)) →
    List (List RouteSegment) → List (List RouteSegment)
  | [], _, routes => routes
  | lab :: rest, seen, routes =>
    match reconstructRoute stopName lab with
    | none => recoverLoop stopName maxRoutes rest seen routes
    | some segs =>
      if routeKey segs ∈ seen then recoverLoop stopName maxRoutes rest seen routes
      else
        let routes' := routes ++ [segs]
        if maxRoutes ≤ routes'.length then routes'
        else recoverLoop stopName maxRoutes rest (routeKey segs :: seen) routes'

/-- Stable ascending sort of labels by arrival time (Python `list.sort` with
an `arrival_time` key; `List.insertionSort` inserts from the right before
strictly larger elements, hence is stable for this total preorder). -/
def sortLabels (ls : List Label) : List Label :=
  List.insertionSort (fun a b : Label => a.arrival ≤ b.arrival) ls

/-- The label store left by the scan of `_find_multiple_routes`. -/
def finalState (conns : List Conn) (startStop endStop : String) (startTime : Int)
    (maxRoutes : Nat) (startIds endIds : List String) : StMap :=
  scanConns (effectiveIds endIds endStop) maxRoutes (max 8 (maxRoutes * 3)) conns
    (initState (effectiveIds startIds startStop) startTime) none

/-- `RouteCalculator._find_multiple_routes`: scan, gather the destination
labels, sort by arrival, and run the recovery loop over the first
`maxRoutes` of them. -/
def findMultipleRoutes (stopName : String → String) (conns : List Conn)
    (startStop endStop : String) (startTime : Int) (maxRoutes : Nat)
    (startIds endIds : List String) : List (List RouteSegment) :=
  let allEnd := gatherEndLabels (effectiveIds endIds endStop)
    (finalState conns startStop endStop startTime maxRoutes startIds endIds)
  if allEnd.isEmpty then []
  else recoverLoop stopName maxRoutes ((sortLabels allEnd).take maxRoutes) [] []

/-! ## `formatter.py` / `route_calculator.py`: seconds → "HH:MM" -/

/-- `RouteFormatter.seconds_to_time` (identical to
`RouteCalculator.seconds_to_time` and `PyRouteCH._seconds_to_time`):
`f"{seconds // 3600:02d}:{(seconds % 3600) // 60:02d}"` with Python floor
division and nonnegative remainder. -/
def seconds_to_time (seconds : Int) : String :=
  fmt02d (seconds.fdiv 3600) ++ ":" ++ fmt02d ((seconds.fmod 3600).fdiv 60)

/-! ## Date/time query parsing (`find_route`) -/

/-- The `%Y` field of `strptime`: exactly four Unicode decimal digits
(the regex is four `\d`, matched text converted with `int()`). -/
def parseYearField (cs : List Char) : Option Nat :=
  if cs.length = 4 then ndDigitsVal 0 cs else none

/-- The `%m` field of `strptime`: one or two ASCII digits (its regex uses
literal ASCII character classes); out-of-range values are rejected by the
later calendar check, giving the same verdicts as the regex alternation. -/
def parseMonthField (s : String) : Option Nat :=
  if 1 ≤ s.data.length ∧ s.data.length ≤ 2 then digitsVal? s.data else none

/-- The `%d` field of `strptime`: one or two ASCII digits, or a space
followed by one nonzero ASCII digit (the `" [1-9]"` alternative of the day
regex); out-of-range values are rejected by the later calendar check. -/
def parseDayField (s : String) : Option Nat :=
  match s.data with
  | [' ', c] => if 49 ≤ c.toNat ∧ c.toNat ≤ 57 then some (digitVal c) else none
  | cs => if 1 ≤ cs.length ∧ cs.length ≤ 2 then digitsVal? cs else none

/-- The calendar validation shared by both `strptime` patterns: year at
least `MINYEAR` = 1 (four-digit fields cap it at `MAXYEAR` = 9999), month
1–12, day within the Gregorian month. -/
def mkValidDate (y m d : Nat) : Option Date :=
  if 1 ≤ y ∧ 1 ≤ m ∧ m ≤ 12 ∧ 1 ≤ d ∧ d ≤ daysInMonth y m then some ⟨y, m, d⟩
  else none

/-- `datetime.strptime(s, "%Y%m%d")` on the eight-character strings
`find_route` routes here: four year digits, two month characters, two day
characters, then calendar validation.  (On eight characters the greedy
`%Y`/`%m`/`%d` split is always 4-2-2.) -/
def parseYmd8 (s : String) : Option Date :=
  match s.data with
  | [y1, y2, y3, y4, m1, m2, d1, d2] =>
    match parseYearField [y1, y2, y3, y4], parseMonthField ⟨[m1, m2]⟩,
        parseDayField ⟨[d1, d2]⟩ with
    | some y, some m, some d => mkValidDate y m d
    | _, _, _ => none
  | _ => none

/-- `datetime.strptime(s, "%Y-%m-%d")`: dash-separated year, month and day
fields with calendar validation. -/
def parseYmdDashed (s : String) : Option Date :=
  match pySplit '-' s with
  | [ys, ms, ds] =>
    match parseYearField ys.data, parseMonthField ms, parseDayField ds with
    | some y, some m, some d => mkValidDate y m d
    | _, _, _ => none
  | _ => none

/-- The date-parsing block of `find_route`: strings of length 8 are tried as
`YYYYMMDD`, everything else as `YYYY-MM-DD`; a `ValueError` maps to `none`. -/
def parsePyDate (s : String) : Option Date :=
  if s.length = 8 then parseYmd8 s else parseYmdDashed s

/-- The time-parsing block of `find_route`:
`int(parts[0]) * 3600 + int(parts[1]) * 60` over `time.split(':')`, with
`ValueError` / `IndexError` mapping to `none`. -/
def parseTimeHHMM (time : String) : Option Int :=
  match pySplit ':' time with
  | p0 :: p1 :: _ =>
    match pyInt? p0, pyInt? p1 with
    | some h, some m => some (h * 3600 + m * 60)
    | _, _ => none
  | _ => none

/-! ## `_build_connections` and `find_route` -/

/-- One row of the trips table joined with its route name (the
`valid_trips[['trip_id', 'route_id', 'route_name']]` projection). -/
structure TripRec where
  trip_id : String
  service_id : String
  route_id : String
  route_name : String
deriving DecidableEq

/-- One row of the `stop_times` table with pre-parsed second columns. -/
structure StopTimeEnt where
  trip_id : String
  stop_id : String
  stop_sequence : Int
  arrival_time_sec : Int
  departure_time_sec : Int
deriving DecidableEq

/-- A row of the merged `trip_stops` frame. -/
structure JRow where
  trip_id : String
  stop_id : String
  stop_sequence : Int
  arrival_time_sec : Int
  departure_time_sec : Int
  route_name : String
deriving DecidableEq

/-- Row order for the stable mergesort on `['trip_id', 'stop_sequence']`. -/
def jrowLe (a b : JRow) : Bool :=
  pyStrLt a.trip_id b.trip_id ||
  (a.trip_id == b.trip_id && a.stop_sequence ≤ b.stop_sequence)

/-- The vectorised `groupby('trip_id').shift(-1)` step: on the frame sorted
by `(trip_id, stop_sequence)` each row is paired with its successor when
that successor belongs to the same trip, giving one connection per adjacent
stop pair. -/
def adjacentConns : List JRow → List Conn
  | [] => []
  | [_] => []
  | a :: b :: rest =>
    (if a.trip_id = b.trip_id then
      [⟨a.trip_id, a.stop_id, b.stop_id, a.departure_time_sec, b.arrival_time_sec,
        a.route_name⟩]
     else []) ++ adjacentConns (b :: rest)

/-- `RouteCalculator._build_connections`: filter trips by the date's valid
services, join stop_times, keep departures at or after the start time, sort
by trip and stop sequence, pair adjacent stops, drop non-increasing hops,
and sort by departure time (stable). -/
def buildConnections (calendar : List (String × CalEntry))
    (calendarDates : List (Date × List (String × Int)))
    (trips : List TripRec) (stopTimes : List StopTimeEnt)
    (date : Date) (startTimeSec : Int) : List Conn :=
  let validServices := getValidServices calendar calendarDates date
  if validServices = ∅ then []
  else
    let validTrips := trips.filter fun t => t.service_id ∈ validServices
    let tripStops : List JRow := stopTimes.flatMap fun stt =>
      (validTrips.filter fun t => t.trip_id == stt.trip_id).map fun t =>
        ⟨stt.trip_id, stt.stop_id, stt.stop_sequence, stt.arrival_time_sec,
         stt.departure_time_sec, t.route_name⟩
    let tripStops := tripStops.filter fun r => startTimeSec ≤ r.departure_time_sec
    let sorted := List.insertionSort (fun a b => jrowLe a b = true) tripStops
    let conns := (adjacentConns sorted).filter fun c => c.dep_time < c.arr_time
    List.insertionSort (fun a b : Conn => a.dep_time ≤ b.dep_time) conns

/-- The loaded feed as `RouteCalculator` sees it through its data loader. -/
structure GtfsData where
  stops : List StopRec
  stopToParent : List (String × String)
  parentToChildren : List (String × List String)
  stopIdToName : List (String × String)
  calendar : List (String × CalEntry)
  calendarDates : List (Date × List (String × Int))
  trips : List TripRec
  stopTimes : List StopTimeEnt

/-- `GTFSDataLoader.get_stop_name`: dictionary lookup defaulting to `""`. -/
def dataStopName (d : GtfsData) : String → String :=
  fun sid => (d.stopIdToName.lookup sid).getD ""

/-- `RouteCalculator.find_route`: parse the date and the time, resolve both
names, reject identical endpoints, then build the connection array and run
the multi-route search over the expanded endpoint id sets; every failure
branch returns the empty route list. -/
def find_route (data : GtfsData) (start_name end_name date time : String)
    (maxRoutes : Nat) : List (List RouteSegment) :=
  match parsePyDate date with
  | none => []
  | some travelDate =>
    match parseTimeHHMM time with
    | none => []
    | some startTimeSec =>
      match findStopId data.stops start_name with
      | none => []
      | some startId =>
        match findStopId data.stops end_name with
        | none => []
        | some endId =>
          if startId = endId then []
          else
            let conns := buildConnections data.calendar data.calendarDates
              data.trips data.stopTimes travelDate startTimeSec
            let startIds := expandStationStopIds data.stopToParent
              data.parentToChildren (some startId)
            let endIds := expandStationStopIds data.stopToParent
              data.parentToChildren (some endId)
            findMultipleRoutes (dataStopName data) conns startId endId
              startTimeSec maxRoutes startIds endIds

/-! ## Definitions modelled from the specification text

These deliberately follow the words of the spec / claims rather than the
source; they exist to be compared against the source-derived definitions
above. -/

/-- Modelled from the spec: fragment of Unicode NFKC normalization on single
characters.  U+00B2 (superscript two) is a compatibility equivalent of '2';
every other code point used in this development is NFKC-fixed. -/
def nfkcChar (c : Char) : Char := if c.toNat = 178 then '2' else c

/-- Modelled from the spec: NFKC normalization of a string (char-wise
fragment). -/
def nfkcStr (s : String) : String := ⟨s.data.map nfkcChar⟩

/-- Modelled from the spec: the claimed name normalization — trim, then NFKC
Unicode normalization, then case-fold. -/
def specNormalizeName (value : String) : String :=
  pyCasefold (nfkcStr (pyStrip value))

/-- Rank 0 for an exact normalized match, else 1 (spec sort key, first
component). -/
def specKeyRank1 (needle a : String) : Nat :=
  if normalizeName a == needle then 0 else 1

/-- Rank 0 for a startswith match, else 1 (spec sort key, second
component). -/
def specKeyRank2 (needle a : String) : Nat :=
  if strStartsWith (normalizeName a) needle then 0 else 1

/-- Modelled from the spec: the `match_substring` ordering — ascending by
the key `(exact?, startswith?, normalized_name)` with exact matches first,
then startswith matches, then by normalized name. -/
def specSimilarLe (needle a b : String) : Bool :=
  specKeyRank1 needle a < specKeyRank1 needle b ||
  (specKeyRank1 needle a == specKeyRank1 needle b &&
    (specKeyRank2 needle a < specKeyRank2 needle b ||
     (specKeyRank2 needle a == specKeyRank2 needle b &&
      pyStrLe (normalizeName a) (normalizeName b))))

/-- Modelled from the spec: `match_substring(name, limit)` — stops whose
normalized name contains the normalized query, ordered by the spec sort key,
deduplicated by display name, truncated to `limit`. -/
def specMatchSub (stops : List StopRec) (stop_name : String) (limit : Nat) :
    List String :=
  let needle := normalizeName stop_name
  if needle = "" then []
  else
    let hits := (stops.filter fun s =>
      strContains (normalizeName s.stop_name) needle).map (·.stop_name)
    pyUniqLimit limit [] (List.insertionSort (fun a b => specSimilarLe needle a b = true) hits)

/-- Modelled from the claim: the distinct itinerary keys reconstructible
from a collection of destination labels. -/
def distinctItinKeys (stopName : String → String) (labs : List Label) :
    List (List (String × String × Int × Int)) :=
  pyUniq [] ((labs.filterMap (reconstructRoute stopName)).map routeKey)

/-- Modelled from the spec: the zero-padded `HH:MM` portion of a clock
string `H:MM:SS` with hour field `H` and minute field `MM`. -/
def zeroPaddedHHMM (H : Int) (MM : Nat) : String :=
  fmt02d H ++ ":" ++ fmt02d (MM : Int)

/-- Modelled from the spec: effective active-service set for date D =
(regular calendar hits for D) ∪ ADDs(D) ∖ REMOVEs(D), over the dict-shaped
inputs of the csv loader. -/
def specActiveServices (calendar : List (String × CalEntry))
    (calendarDates : List (Date × List (String × Int))) (d : Date) : Finset String :=
  let exc := (calendarDates.lookup d).getD []
  (regularServices calendar d ∪ ((exc.filter fun p => p.2 == 1).map Prod.fst).toFinset) \
    ((exc.filter fun p => p.2 == 2).map Prod.fst).toFinset

/-! ## Invariant predicates for the label scan -/

/-- A label chain is well linked: every step boards at the stop its
predecessor reached, no earlier than the predecessor's arrival. -/
def chainedLabel : Label → Prop
  | .start _ _ => True
  | .step _ _ p _ _ ds dt => chainedLabel p ∧ p.stopId = ds ∧ p.arrival ≤ dt

/-- Every step of a label chain uses a connection that arrives strictly
after it departs. -/
def strictLabel : Label → Prop
  | .start _ _ => True
  | .step _ a p _ _ _ dt => strictLabel p ∧ dt < a

/-- Store invariant: every stored label satisfies `P` and is filed under its
own stop id. -/
def stInv (P : Label → Prop) (st : StMap) : Prop :=
  ∀ s, ∀ l ∈ st s, P l ∧ l.stopId = s

/-- The chaining relation between consecutive collected connection tuples:
the later one boards where the earlier one alighted, no earlier than the
earlier one's arrival. -/
def linkChain (a b : LinkT) : Prop :=
  a.arrStop = b.depStop ∧ a.arrTime ≤ b.depTime

/-! ## Helper lemmas: deduplication -/

theorem pyUniq_not_mem_seen {α : Type} [DecidableEq α] (seen : List α) (xs : List α) :
    ∀ y ∈ pyUniq seen xs, y ∉ seen := by
  induction xs generalizing seen with
  | nil => intro y hy; simp [pyUniq] at hy
  | cons x xs ih =>
    intro y hy
    by_cases hx : x ∈ seen
    · simp only [pyUniq, if_pos hx] at hy
      exact ih seen y hy
    · simp only [pyUniq, if_neg hx] at hy
      rw [List.mem_cons] at hy
      rcases hy with rfl | hy
      · exact hx
      · intro hseen
        exact ih (x :: seen) y hy (List.mem_cons_of_mem x hseen)

theorem pyUniq_nodup {α : Type} [DecidableEq α] (seen : List α) (xs : List α) :
    (pyUniq seen xs).Nodup := by
  induction xs generalizing seen with
  | nil => simp [pyUniq]
  | cons x xs ih =>
    by_cases hx : x ∈ seen
    · simpa [pyUniq, if_pos hx] using ih seen
    · simp only [pyUniq, if_neg hx]
      refine List.nodup_cons.2 ⟨?_, ih (x :: seen)⟩
      intro hmem
      exact pyUniq_not_mem_seen (x :: seen) xs x hmem (List.mem_cons_self x seen)

theorem pyUniq_sub {α : Type} [DecidableEq α] (seen : List α) (xs : List α) :
    ∀ y ∈ pyUniq seen xs, y ∈ xs := by
  induction xs generalizing seen with
  | nil => intro y hy; simp [pyUniq] at hy
  | cons x xs ih =>
    intro y hy
    by_cases hx : x ∈ seen
    · simp only [pyUniq, if_pos hx] at hy
      exact List.mem_cons_of_mem x (ih seen y hy)
    · simp only [pyUniq, if_neg hx] at hy
      rw [List.mem_cons] at hy
      rcases hy with rfl | hy
      · exact List.mem_cons_self y xs
      · exact List.mem_cons_of_mem x (ih (x :: seen) y hy)

/-! ## C10 : expand_station_stop_ids -/

/-- C10: `expand_station_stop_ids` returns `[]` for `None` and for
whitespace-only input; for any other input it returns a duplicate-free list
whose first element is the station id (the stripped parent station when
non-empty, else the stripped stop id itself); and for a non-empty stop id
unknown to the feed (no parent entry, no children entry) it returns exactly
the one-element list holding that id. -/
theorem c10_expand_station_ids (stopToParent : List (String × String))
    (parentToChildren : List (String × List String)) :
    expandStationStopIds stopToParent parentToChildren none = [] ∧
    (∀ raw, pyStrip raw = "" →
      expandStationStopIds stopToParent parentToChildren (some raw) = []) ∧
    (∀ raw, pyStrip raw ≠ "" →
      (expandStationStopIds stopToParent parentToChildren (some raw)).head? =
        some (stationOf stopToParent (pyStrip raw)) ∧
      (expandStationStopIds stopToParent parentToChildren (some raw)).Nodup) ∧
    (∀ sid, sid ≠ "" → pyStrip sid = sid →
      stopToParent.lookup sid = none → parentToChildren.lookup sid = none →
      expandStationStopIds stopToParent parentToChildren (some sid) = [sid]) := by
  refine ⟨rfl, ?_, ?_, ?_⟩
  · intro raw h
    simp [expandStationStopIds, h]
  · intro raw h
    constructor
    · simp only [expandStationStopIds, if_neg h]
      have hs : stationOf stopToParent (pyStrip raw) ∉ ([] : List String) := by simp
      simp [pyUniq, hs]
    · simp only [expandStationStopIds, if_neg h]
      exact pyUniq_nodup _ _
  · intro sid hne hstrip hpar hchild
    simp only [expandStationStopIds, hstrip, if_neg hne, hchild, hpar]
    have hstation : stationOf stopToParent sid = sid := by
      simp [stationOf, hpar, pyStrip, stripChars]
    simp [hstation, hchild, pyUniq]

/-- Witness for C10 at a concrete two-platform station: the theorem applied
to the feed `{P1 → S, S → [P1, P2]}` at `None`, whitespace, a platform id and
an unknown id. -/
theorem c10_expand_station_ids_witness :
    expandStationStopIds [("P1", "S")] [("S", ["P1", "P2"])] none = [] ∧
    expandStationStopIds [("P1", "S")] [("S", ["P1", "P2"])] (some "  ") = [] ∧
    (expandStationStopIds [("P1", "S")] [("S", ["P1", "P2"])] (some "P1")).head? =
      some "S" ∧
    (expandStationStopIds [("P1", "S")] [("S", ["P1", "P2"])] (some "P1")).Nodup ∧
    expandStationStopIds [("P1", "S")] [("S", ["P1", "P2"])] (some "X") = ["X"] := by
  have h := c10_expand_station_ids [("P1", "S")] [("S", ["P1", "P2"])]
  refine ⟨h.1, h.2.1 "  " (by decide), ?_, (h.2.2.1 "P1" (by decide)).2,
    h.2.2.2 "X" (by decide) (by decide) (by decide) (by decide)⟩
  have h3 := (h.2.2.1 "P1" (by decide)).1
  have : stationOf [("P1", "S")] (pyStrip "P1") = "S" := by decide
  rw [this] at h3
  exact h3

/-! ## C5 : name normalization -/

/-- C5 counterexample: the source normalization applies no NFKC step.  On
U+00B2 (superscript two) the claimed normalization (trim, NFKC, case-fold)
gives "2", the source gives "²"; consequently a stop displayed as "2" is not
found when the query is "²", though under the claimed normalization the two
names normalize identically. -/
theorem c5_normalization_counterexample :
    normalizeName "²" ≠ specNormalizeName "²" ∧
    specNormalizeName "²" = normalizeName "2" ∧
    findStopId [⟨"S1", "2", ""⟩] "²" = none := by
  refine ⟨by decide, by decide, by decide⟩

/-- C5 (amended): the normalization used by stop-name resolution
(`find_stop_id`, `find_matching_stops`, `find_similar_stops`) is trim then
case-fold, with no NFKC normalization; and input that is empty after
trimming yields no match (`none` / `[]`) from all three functions. -/
theorem c5_normalization_amended :
    (∀ v : String, normalizeName v = pyCasefold (pyStrip v)) ∧
    (∀ (stops : List StopRec) (q : String) (lim : Nat), pyStrip q = "" →
      findStopId stops q = none ∧ findMatchingStops stops q = [] ∧
      findSimilarStops stops q lim = []) := by
  constructor
  · intro v
    by_cases h : pyStrip v = ""
    · rw [normalizeName, h]
      simp only [if_pos rfl]
      rfl
    · rw [normalizeName]
      simp only [if_neg h]
  · intro stops q lim h
    have hneedle : normalizeName q = "" := by rw [normalizeName, h]; simp
    refine ⟨?_, ?_, ?_⟩
    · rw [findStopId, hneedle]; simp
    · rw [findMatchingStops, hneedle]; simp
    · rw [findSimilarStops, hneedle]; simp

/-- Witness for C5 (amended) at a padded name and a whitespace-only query. -/
theorem c5_normalization_amended_witness :
    normalizeName " Zug " = pyCasefold (pyStrip " Zug ") ∧
    (findStopId [⟨"S1", "Zug", ""⟩] "  " = none ∧
     findMatchingStops [⟨"S1", "Zug", ""⟩] "  " = [] ∧
     findSimilarStops [⟨"S1", "Zug", ""⟩] "  " 5 = []) :=
  ⟨c5_normalization_amended.1 " Zug ",
   c5_normalization_amended.2 [⟨"S1", "Zug", ""⟩] "  " 5 (by decide)⟩

/-! ## Helper lemmas: Python string order -/

theorem strLtAux_total (as bs : List Char) :
    as = bs ∨ strLtAux as bs = true ∨ strLtAux bs as = true := by
  induction as generalizing bs with
  | nil => cases bs with
    | nil => exact Or.inl rfl
    | cons b bs => exact Or.inr (Or.inl rfl)
  | cons a as ih =>
    cases bs with
    | nil => exact Or.inr (Or.inr rfl)
    | cons b bs =>
      by_cases hab : a = b
      · subst hab
        rcases ih bs with h | h | h
        · exact Or.inl (by rw [h])
        · exact Or.inr (Or.inl (by simp [strLtAux, h]))
        · exact Or.inr (Or.inr (by simp [strLtAux, h]))
      · have hv : a.toNat ≠ b.toNat := fun hv => hab (Char.ext (UInt32.toNat.inj hv))
        rcases Nat.lt_or_ge a.toNat b.toNat with hlt | hge
        · exact Or.inr (Or.inl (by simp [strLtAux, hab, hlt]))
        · have hgt : b.toNat < a.toNat := lt_of_le_of_ne hge (Ne.symm hv)
          have hba : ¬b = a := fun h => hab h.symm
          exact Or.inr (Or.inr (by simp [strLtAux, hba, hgt]))

theorem strLtAux_trans (as bs cs : List Char) (h1 : strLtAux as bs = true)
    (h2 : strLtAux bs cs = true) : strLtAux as cs = true := by
  induction as generalizing bs cs with
  | nil =>
    cases bs with
    | nil => simp [strLtAux] at h1
    | cons b bs =>
      cases cs with
      | nil => simp [strLtAux] at h2
      | cons c cs => simp [strLtAux]
  | cons a as ih =>
    cases bs with
    | nil => simp [strLtAux] at h1
    | cons b bs =>
      cases cs with
      | nil => simp [strLtAux] at h2
      | cons c cs =>
        by_cases hab : a = b
        · subst hab
          by_cases hbc : a = c
          · subst hbc
            simp only [strLtAux, if_pos rfl] at h1 h2 ⊢
            exact ih bs cs h1 h2
          · simp only [strLtAux, if_neg hbc] at h2 ⊢
            exact h2
        · by_cases hbc : b = c
          · subst hbc
            simp only [strLtAux, if_neg hab] at h1 ⊢
            exact h1
          · simp only [strLtAux, if_neg hab] at h1
            simp only [strLtAux, if_neg hbc] at h2
            by_cases hac : a = c
            · subst hac
              exfalso
              have hn1 : a.toNat < b.toNat := of_decide_eq_true h1
              have hn2 : b.toNat < a.toNat := of_decide_eq_true h2
              omega
            · simp only [strLtAux, if_neg hac]
              have hn1 : a.toNat < b.toNat := of_decide_eq_true h1
              have hn2 : b.toNat < c.toNat := of_decide_eq_true h2
              exact decide_eq_true (Nat.lt_trans hn1 hn2)

theorem pyStrLe_total (a b : String) : pyStrLe a b = true ∨ pyStrLe b a = true := by
  rcases strLtAux_total a.data b.data with h | h | h
  · left
    have hab : a = b := by
      cases a with
      | mk da => cases b with
        | mk db => exact congrArg String.mk h
    simp [pyStrLe, hab]
  · left; simp [pyStrLe, pyStrLt, h]
  · right; simp [pyStrLe, pyStrLt, h]

theorem pyStrLe_trans (a b c : String) (h1 : pyStrLe a b = true)
    (h2 : pyStrLe b c = true) : pyStrLe a c = true := by
  simp only [pyStrLe, Bool.or_eq_true, beq_iff_eq] at h1 h2 ⊢
  rcases h1 with rfl | h1
  · exact h2
  · rcases h2 with rfl | h2
    · exact Or.inr h1
    · exact Or.inr (strLtAux_trans _ _ _ h1 h2)

/-! ## Helper lemmas: limited deduplication -/

theorem pyUniqLimit_sublist (r : Nat) (seen xs : List String) :
    (pyUniqLimit r seen xs).Sublist xs := by
  induction xs generalizing r seen with
  | nil => simp [pyUniqLimit]
  | cons x xs ih =>
    match r with
    | 0 => simp [pyUniqLimit]
    | r + 1 =>
      simp only [pyUniqLimit]
      by_cases hx : x ∈ seen
      · simp only [if_pos hx]
        exact (ih (r + 1) seen).cons x
      · simp only [if_neg hx]
        exact (ih r (x :: seen)).cons₂ x

theorem pyUniqLimit_not_mem_seen (r : Nat) (seen xs : List String) :
    ∀ y ∈ pyUniqLimit r seen xs, y ∉ seen := by
  induction xs generalizing r seen with
  | nil => intro y hy; simp [pyUniqLimit] at hy
  | cons x xs ih =>
    intro y hy
    match r with
    | 0 => simp [pyUniqLimit] at hy
    | r + 1 =>
      simp only [pyUniqLimit] at hy
      by_cases hx : x ∈ seen
      · rw [if_pos hx] at hy
        exact ih (r + 1) seen y hy
      · rw [if_neg hx] at hy
        rw [List.mem_cons] at hy
        rcases hy with rfl | hy
        · exact hx
        · intro hseen
          exact ih r (x :: seen) y hy (List.mem_cons_of_mem x hseen)

theorem pyUniqLimit_nodup (r : Nat) (seen xs : List String) :
    (pyUniqLimit r seen xs).Nodup := by
  induction xs generalizing r seen with
  | nil => simp [pyUniqLimit]
  | cons x xs ih =>
    match r with
    | 0 => simp [pyUniqLimit]
    | r + 1 =>
      simp only [pyUniqLimit]
      by_cases hx : x ∈ seen
      · simpa [if_pos hx] using ih (r + 1) seen
      · simp only [if_neg hx]
        refine List.nodup_cons.2 ⟨?_, ih r (x :: seen)⟩
        intro hmem
        exact pyUniqLimit_not_mem_seen r (x :: seen) xs x hmem (List.mem_cons_self x seen)

theorem pyUniqLimit_length (r : Nat) (seen xs : List String) :
    (pyUniqLimit r seen xs).length ≤ r := by
  induction xs generalizing r seen with
  | nil => simp [pyUniqLimit]
  | cons x xs ih =>
    match r with
    | 0 => simp [pyUniqLimit]
    | r + 1 =>
      simp only [pyUniqLimit]
      by_cases hx : x ∈ seen
      · rw [if_pos hx]; exact ih (r + 1) seen
      · rw [if_neg hx]
        simpa using Nat.succ_le_succ (ih r (x :: seen))

theorem pyUniqLimit_complete (r : Nat) (seen xs : List String)
    (hlen : (pyUniqLimit r seen xs).length < r) :
    ∀ y ∈ xs, y ∈ pyUniqLimit r seen xs ∨ y ∈ seen := by
  induction xs generalizing r seen with
  | nil => intro y hy; simp at hy
  | cons x xs ih =>
    intro y hy
    match r with
    | 0 => omega
    | r + 1 =>
      simp only [pyUniqLimit] at hlen ⊢
      by_cases hx : x ∈ seen
      · rw [if_pos hx] at hlen ⊢
        rw [List.mem_cons] at hy
        rcases hy with rfl | hy
        · exact Or.inr hx
        · exact ih (r + 1) seen hlen y hy
      · rw [if_neg hx] at hlen ⊢
        rw [List.mem_cons] at hy
        rcases hy with rfl | hy
        · exact Or.inl (List.mem_cons_self y _)
        · have hlen' : (pyUniqLimit r (x :: seen) xs).length < r := by
            simp at hlen; omega
          rcases ih r (x :: seen) hlen' y hy with h | h
          · exact Or.inl (List.mem_cons_of_mem x h)
          · rw [List.mem_cons] at h
            rcases h with rfl | h
            · exact Or.inl (List.mem_cons_self y _)
            · exact Or.inr h

/-! ## C7 : find_similar_stops -/

/-- C7 counterexample: with stops displayed "BX" and "aX" and query "x"
(both match by substring, neither exactly nor by prefix), the source sorts
by raw display name and returns ["BX", "aX"] (code point 'B' < 'a'), while
the claimed key (exact?, startswith?, normalized_name) orders "aX" (norm
"ax") before "BX" (norm "bx"). -/
theorem c7_similar_stops_counterexample :
    findSimilarStops [⟨"S1", "BX", ""⟩, ⟨"S2", "aX", ""⟩] "x" 10 = ["BX", "aX"] ∧
    specMatchSub [⟨"S1", "BX", ""⟩, ⟨"S2", "aX", ""⟩] "x" 10 = ["aX", "BX"] := by
  exact ⟨by decide, by decide⟩

/-- C7 (amended): for a query with nonempty normalized form,
`find_similar_stops` returns display names of exactly the stops whose
normalized name contains the normalized query — deduplicated, sorted
ascending by raw display name in Python string order (not by the claimed
key (exact?, startswith?, normalized_name)), and truncated to at most
`limit`; when fewer than `limit` names are returned, every matching display
name is present. -/
theorem c7_similar_stops_amended (stops : List StopRec) (q : String) (lim : Nat)
    (hq : normalizeName q ≠ "") :
    (∀ n ∈ findSimilarStops stops q lim, ∃ s ∈ stops, s.stop_name = n ∧
        strContains (normalizeName s.stop_name) (normalizeName q) = true) ∧
    (findSimilarStops stops q lim).Nodup ∧
    List.Chain' (fun a b => pyStrLe a b = true) (findSimilarStops stops q lim) ∧
    (findSimilarStops stops q lim).length ≤ lim ∧
    ((findSimilarStops stops q lim).length < lim →
      ∀ s ∈ stops, strContains (normalizeName s.stop_name) (normalizeName q) = true →
        s.stop_name ∈ findSimilarStops stops q lim) := by
  haveI itot : IsTotal String (fun a b => pyStrLe a b = true) := ⟨pyStrLe_total⟩
  haveI itr : IsTrans String (fun a b => pyStrLe a b = true) := ⟨pyStrLe_trans⟩
  have heq : findSimilarStops stops q lim =
      pyUniqLimit lim [] (List.insertionSort (fun a b => pyStrLe a b = true)
        ((stops.filter fun s =>
          strContains (normalizeName s.stop_name) (normalizeName q)).map (·.stop_name))) := by
    simp only [findSimilarStops, if_neg hq]
  set hits := (stops.filter fun s =>
    strContains (normalizeName s.stop_name) (normalizeName q)).map (·.stop_name) with hhits
  set sorted := List.insertionSort (fun a b => pyStrLe a b = true) hits with hsorted
  have hperm : sorted.Perm hits := List.perm_insertionSort _ hits
  refine ⟨?_, ?_, ?_, ?_, ?_⟩
  · intro n hn
    rw [heq] at hn
    have hn2 : n ∈ sorted := pyUniqLimit_sublist lim [] sorted |>.mem hn
    have hn3 : n ∈ hits := hperm.mem_iff.1 hn2
    rw [hhits] at hn3
    rcases List.mem_map.1 hn3 with ⟨s, hs, rfl⟩
    rcases List.mem_filter.1 hs with ⟨hsmem, hscond⟩
    exact ⟨s, hsmem, rfl, hscond⟩
  · rw [heq]; exact pyUniqLimit_nodup lim [] sorted
  · rw [heq]
    have hsortd : List.Sorted (fun a b => pyStrLe a b = true) sorted :=
      List.sorted_insertionSort _ hits
    have hpw : List.Pairwise (fun a b => pyStrLe a b = true)
        (pyUniqLimit lim [] sorted) :=
      List.Pairwise.sublist (pyUniqLimit_sublist lim [] sorted) hsortd
    exact hpw.chain'
  · rw [heq]; exact pyUniqLimit_length lim [] sorted
  · intro hlen s hsmem hscond
    rw [heq] at hlen ⊢
    have hmemhits : s.stop_name ∈ hits := by
      rw [hhits]
      exact List.mem_map.2 ⟨s, List.mem_filter.2 ⟨hsmem, hscond⟩, rfl⟩
    have hmemsorted : s.stop_name ∈ sorted := hperm.mem_iff.2 hmemhits
    rcases pyUniqLimit_complete lim [] sorted hlen s.stop_name hmemsorted with h | h
    · exact h
    · simp at h

/-- Witness for C7 (amended) at a concrete feed: two matching stops, one
non-matching, limit 10. -/
theorem c7_similar_stops_amended_witness :
    normalizeName "x" ≠ "" ∧
    (findSimilarStops [⟨"S1", "BX", ""⟩, ⟨"S2", "aX", ""⟩, ⟨"S3", "Q", ""⟩] "x" 10).Nodup ∧
    (findSimilarStops [⟨"S1", "BX", ""⟩, ⟨"S2", "aX", ""⟩, ⟨"S3", "Q", ""⟩] "x" 10).length ≤ 10 :=
  ⟨by decide,
   (c7_similar_stops_amended [⟨"S1", "BX", ""⟩, ⟨"S2", "aX", ""⟩, ⟨"S3", "Q", ""⟩] "x" 10
     (by decide)).2.1,
   (c7_similar_stops_amended [⟨"S1", "BX", ""⟩, ⟨"S2", "aX", ""⟩, ⟨"S3", "Q", ""⟩] "x" 10
     (by decide)).2.2.2.1⟩

/-! ## C4 : active-service computation -/

/-- C4 counterexample: `GTFSDataLoader.get_valid_services` applies exception
rows sequentially, so for a service "S" active by the regular calendar with
a REMOVE row followed by an ADD row for the same date, "S" stays in the
result, although the claimed formula (regular ∪ ADDs) ∖ REMOVEs excludes
it; swapping the two rows changes the result, so it is not independent of
exception-row order. -/
theorem c4_active_services_counterexample :
    "S" ∈ getValidServices [("S", ⟨⟨2025, 1, 1⟩, ⟨2025, 12, 31⟩, fun _ => true⟩)]
      [(⟨2025, 12, 15⟩, [("S", 2), ("S", 1)])] ⟨2025, 12, 15⟩ ∧
    "S" ∉ specActiveServices [("S", ⟨⟨2025, 1, 1⟩, ⟨2025, 12, 31⟩, fun _ => true⟩)]
      [(⟨2025, 12, 15⟩, [("S", 2), ("S", 1)])] ⟨2025, 12, 15⟩ ∧
    getValidServices [("S", ⟨⟨2025, 1, 1⟩, ⟨2025, 12, 31⟩, fun _ => true⟩)]
      [(⟨2025, 12, 15⟩, [("S", 2), ("S", 1)])] ⟨2025, 12, 15⟩ ≠
    getValidServices [("S", ⟨⟨2025, 1, 1⟩, ⟨2025, 12, 31⟩, fun _ => true⟩)]
      [(⟨2025, 12, 15⟩, [("S", 1), ("S", 2)])] ⟨2025, 12, 15⟩ := by
  refine ⟨by decide, by decide, by decide⟩

theorem applyExceptions_cons_add (valid : Finset String) (sid : String)
    (rest : List (String × Int)) :
    applyExceptions valid ((sid, (1 : Int)) :: rest) =
      applyExceptions (insert sid valid) rest := by
  simp [applyExceptions]

theorem applyExceptions_cons_remove (valid : Finset String) (sid : String)
    (rest : List (String × Int)) :
    applyExceptions valid ((sid, (2 : Int)) :: rest) =
      applyExceptions (valid.erase sid) rest := by
  simp [applyExceptions]

theorem applyExceptions_cons_other (valid : Finset String) (sid : String)
    (e : Int) (rest : List (String × Int)) (h1 : e ≠ 1) (h2 : e ≠ 2) :
    applyExceptions valid ((sid, e) :: rest) = applyExceptions valid rest := by
  simp [applyExceptions, h1, h2]

/-- C4 (amended): `PyRouteCH._get_valid_services` (main.py) does return
exactly (regular calendar hits) ∪ ADDs ∖ REMOVEs and is independent of the
order of the calendar_dates rows; `GTFSDataLoader.get_valid_services`
(data_loader.py) instead applies the date's exception rows sequentially
(ADD inserts, REMOVE deletes if present), which coincides with that formula
whenever no service has both an ADD and a REMOVE row for the date — but not
in general, as a REMOVE row followed by an ADD row re-activates the
service. -/
theorem c4_active_services_amended :
    (∀ (cal : List CalRow) (cd : List CalDateRow) (d : Date) (s : String),
      s ∈ mainGetValidServices cal cd d ↔
        ((∃ r ∈ cal, r.service_id = s ∧
            (dateLe r.start_date d && dateLe d r.end_date &&
              r.weekdays (weekdayOf d)) = true) ∨
          (∃ r ∈ cd, r.service_id = s ∧ r.date = d ∧ r.exception_type = 1)) ∧
        ¬(∃ r ∈ cd, r.service_id = s ∧ r.date = d ∧ r.exception_type = 2)) ∧
    (∀ (cal : List CalRow) (cd cd' : List CalDateRow) (d : Date), cd.Perm cd' →
      mainGetValidServices cal cd d = mainGetValidServices cal cd' d) ∧
    (∀ (valid : Finset String) (exc : List (String × Int)),
      (∀ s, ¬((s, (1 : Int)) ∈ exc ∧ (s, (2 : Int)) ∈ exc)) →
      applyExceptions valid exc =
        (valid ∪ ((exc.filter fun p => p.2 == 1).map Prod.fst).toFinset) \
          ((exc.filter fun p => p.2 == 2).map Prod.fst).toFinset) := by
  have hmem : ∀ (cal : List CalRow) (cd : List CalDateRow) (d : Date) (s : String),
      s ∈ mainGetValidServices cal cd d ↔
        ((∃ r ∈ cal, r.service_id = s ∧
            (dateLe r.start_date d && dateLe d r.end_date &&
              r.weekdays (weekdayOf d)) = true) ∨
          (∃ r ∈ cd, r.service_id = s ∧ r.date = d ∧ r.exception_type = 1)) ∧
        ¬(∃ r ∈ cd, r.service_id = s ∧ r.date = d ∧ r.exception_type = 2) := by
    intro cal cd d s
    simp only [mainGetValidServices, Finset.mem_sdiff, Finset.mem_union,
      List.mem_toFinset, List.mem_map, List.mem_filter, Bool.and_eq_true,
      beq_iff_eq]
    constructor
    · rintro ⟨hin, hout⟩
      refine ⟨?_, ?_⟩
      · rcases hin with ⟨r, ⟨hr, hc⟩, hrid⟩ | ⟨r, ⟨hr, hd1, ht1⟩, hrid⟩
        · exact Or.inl ⟨r, hr, hrid, by simpa [Bool.and_eq_true] using hc⟩
        · exact Or.inr ⟨r, hr, hrid, hd1, ht1⟩
      · rintro ⟨r, hr, hrid, hdate, htype⟩
        exact hout ⟨r, ⟨hr, hdate, htype⟩, hrid⟩
    · rintro ⟨hin, hout⟩
      refine ⟨?_, ?_⟩
      · rcases hin with ⟨r, hr, hrid, hc⟩ | ⟨r, hr, hrid, hd1, ht1⟩
        · exact Or.inl ⟨r, ⟨hr, by simpa [Bool.and_eq_true] using hc⟩, hrid⟩
        · exact Or.inr ⟨r, ⟨hr, hd1, ht1⟩, hrid⟩
      · rintro ⟨r, ⟨hr, hdate, htype⟩, hrid⟩
        exact hout ⟨r, hr, hrid, hdate, htype⟩
  refine ⟨hmem, ?_, ?_⟩
  · intro cal cd cd' d hperm
    apply Finset.ext
    intro s
    rw [hmem cal cd d s, hmem cal cd' d s]
    simp only [hperm.mem_iff]
  · intro valid exc
    induction exc generalizing valid with
    | nil => intro _; simp [applyExceptions]
    | cons p rest ih =>
      intro hconf
      obtain ⟨sid, e⟩ := p
      have hconf' : ∀ s, ¬((s, (1 : Int)) ∈ rest ∧ (s, (2 : Int)) ∈ rest) := by
        intro s hs
        exact hconf s ⟨List.mem_cons_of_mem _ hs.1, List.mem_cons_of_mem _ hs.2⟩
      by_cases h1 : e = 1
      · subst h1
        rw [applyExceptions_cons_add, ih (insert sid valid) hconf']
        have hfilter1 : ((sid, (1 : Int)) :: rest).filter (fun p => p.2 == 1) =
            (sid, (1 : Int)) :: rest.filter (fun p => p.2 == 1) := by
          simp [List.filter_cons]
        have hfilter2 : ((sid, (1 : Int)) :: rest).filter (fun p => p.2 == 2) =
            rest.filter (fun p => p.2 == 2) := by
          simp [List.filter_cons]
        rw [hfilter1, hfilter2]
        congr 1
        simp only [List.map_cons, List.toFinset_cons]
        rw [Finset.union_insert, Finset.insert_union]
      · by_cases h2 : e = 2
        · subst h2
          rw [applyExceptions_cons_remove, ih (valid.erase sid) hconf']
          have hfilter1 : ((sid, (2 : Int)) :: rest).filter (fun p => p.2 == 1) =
              rest.filter (fun p => p.2 == 1) := by
            simp [List.filter_cons]
          have hfilter2 : ((sid, (2 : Int)) :: rest).filter (fun p => p.2 == 2) =
              (sid, (2 : Int)) :: rest.filter (fun p => p.2 == 2) := by
            simp [List.filter_cons]
          rw [hfilter1, hfilter2]
          have hA : sid ∉ ((rest.filter fun p => p.2 == 1).map Prod.fst).toFinset := by
            simp only [List.mem_toFinset, List.mem_map, List.mem_filter, beq_iff_eq]
            rintro ⟨⟨a, b⟩, ⟨hmem2, hb⟩, ha⟩
            simp only at hb ha
            subst hb
            subst ha
            exact hconf a ⟨List.mem_cons_of_mem _ hmem2, List.mem_cons_self _ _⟩
          apply Finset.ext
          intro x
          simp only [List.map_cons, List.toFinset_cons, Finset.mem_sdiff,
            Finset.mem_union, Finset.mem_erase, Finset.mem_insert]
          by_cases hx : x = sid
          · subst hx
            tauto
          · tauto
        · rw [applyExceptions_cons_other valid sid e rest h1 h2, ih valid hconf']
          have hfilter1 : ((sid, e) :: rest).filter (fun p => p.2 == 1) =
              rest.filter (fun p => p.2 == 1) := by
            simp [List.filter_cons, h1]
          have hfilter2 : ((sid, e) :: rest).filter (fun p => p.2 == 2) =
              rest.filter (fun p => p.2 == 2) := by
            simp [List.filter_cons, h2]
          rw [hfilter1, hfilter2]

/-- Witness for C4 (amended): the permutation part applied to two swapped
calendar_dates rows and the sequential part applied to a conflict-free
exception list. -/
theorem c4_active_services_amended_witness :
    mainGetValidServices [] [⟨"A", ⟨2025, 12, 15⟩, 1⟩, ⟨"B", ⟨2025, 12, 15⟩, 1⟩]
        ⟨2025, 12, 15⟩ =
      mainGetValidServices [] [⟨"B", ⟨2025, 12, 15⟩, 1⟩, ⟨"A", ⟨2025, 12, 15⟩, 1⟩]
        ⟨2025, 12, 15⟩ ∧
    applyExceptions {"A"} [("B", (1 : Int)), ("A", (2 : Int))] =
      (({"A"} : Finset String) ∪
        (([("B", (1 : Int)), ("A", (2 : Int))].filter fun p => p.2 == 1).map
          Prod.fst).toFinset) \
        (([("B", (1 : Int)), ("A", (2 : Int))].filter fun p => p.2 == 2).map
          Prod.fst).toFinset :=
  ⟨c4_active_services_amended.2.1 [] _ _ ⟨2025, 12, 15⟩ (List.Perm.swap _ _ []),
   c4_active_services_amended.2.2 {"A"} [("B", (1 : Int)), ("A", (2 : Int))]
     (by
       rintro s ⟨h1, h2⟩
       simp at h1 h2
       subst h1
       exact absurd h2 (by decide))⟩

/-! ## Helper lemmas: decimal digits and Python int round trips -/

theorem digitChar_isDigit (d : Nat) (h : d < 10) :
    isDigitCh (digitChar d) = true ∧ digitVal (digitChar d) = d := by
  interval_cases d <;> exact ⟨by decide, by decide⟩

theorem digitsValAcc_append (xs ys : List Char) (acc : Nat) :
    digitsValAcc acc (xs ++ ys) =
      match digitsValAcc acc xs with
      | some a => digitsValAcc a ys
      | none => none := by
  induction xs generalizing acc with
  | nil => simp [digitsValAcc]
  | cons c cs ih =>
    by_cases hc : isDigitCh c = true
    · simp only [List.cons_append, digitsValAcc, if_pos hc]
      exact ih _
    · simp only [List.cons_append, digitsValAcc, if_neg hc]

theorem natDigitsAux_ne_nil (fuel n : Nat) (h : n < fuel) :
    natDigitsAux fuel n ≠ [] := by
  induction fuel generalizing n with
  | zero => omega
  | succ fuel ih =>
    simp only [natDigitsAux]
    by_cases hn : n < 10
    · simp [hn]
    · simp only [if_neg hn]
      intro habs
      rcases List.append_eq_nil.1 habs with ⟨-, h2⟩
      simp at h2

theorem natDigitsAux_all_digits (fuel n : Nat) (h : n < fuel) :
    ∀ c ∈ natDigitsAux fuel n, isDigitCh c = true := by
  induction fuel generalizing n with
  | zero => omega
  | succ fuel ih =>
    intro c hc
    simp only [natDigitsAux] at hc
    by_cases hn : n < 10
    · rw [if_pos hn] at hc
      simp only [List.mem_singleton] at hc
      subst hc
      exact (digitChar_isDigit n hn).1
    · rw [if_neg hn] at hc
      rcases List.mem_append.1 hc with h2 | h2
      · exact ih (n / 10) (by omega) c h2
      · simp only [List.mem_singleton] at h2
        subst h2
        exact (digitChar_isDigit (n % 10) (Nat.mod_lt n (by omega))).1

theorem natDigitsAux_val (fuel n : Nat) (h : n < fuel) (acc : Nat) :
    digitsValAcc acc (natDigitsAux fuel n) =
      some (acc * 10 ^ (natDigitsAux fuel n).length + n) := by
  induction fuel generalizing n acc with
  | zero => omega
  | succ fuel ih =>
    by_cases hn : n < 10
    · simp only [natDigitsAux, if_pos hn, digitsValAcc,
        (digitChar_isDigit n hn).1, if_true, (digitChar_isDigit n hn).2,
        List.length_cons, List.length_nil]
      simp
    · simp only [natDigitsAux, if_neg hn]
      rw [digitsValAcc_append]
      rw [ih (n / 10) (by omega) acc]
      have hd := digitChar_isDigit (n % 10) (Nat.mod_lt n (by omega))
      simp only [digitsValAcc, hd.1, if_true, hd.2, List.length_append,
        List.length_cons, List.length_nil]
      have : (acc * 10 ^ (natDigitsAux fuel (n / 10)).length + n / 10) * 10 +
          n % 10 = acc * 10 ^ ((natDigitsAux fuel (n / 10)).length + 1) + n := by
        rw [pow_succ]
        have := Nat.div_add_mod n 10
        ring_nf
        omega
      rw [this]

theorem digitsVal_natDigits (n : Nat) : digitsVal? (natDigits n) = some n := by
  have hne := natDigitsAux_ne_nil (n + 1) n (by omega)
  have hval := natDigitsAux_val (n + 1) n (by omega) 0
  rcases hd : natDigitsAux (n + 1) n with _ | ⟨c, cs⟩
  · exact absurd hd hne
  · rw [natDigits, hd]
    rw [hd] at hval
    simpa using hval

theorem isDigitCh_not_space (c : Char) (h : isDigitCh c = true) :
    isPySpace c = false := by
  simp only [isDigitCh, Bool.and_eq_true, decide_eq_true_eq] at h
  simp only [isPySpace, pySpaceCodes, decide_eq_false_iff_not, List.mem_cons,
    List.not_mem_nil, or_false]
  omega

theorem decDigit_ascii (c : Char) (h : isDigitCh c = true) :
    decDigit? c = some (digitVal c) := by
  simp only [isDigitCh, Bool.and_eq_true, decide_eq_true_eq] at h
  have hfind : ndRangeStarts.find?
      (fun s => decide (s ≤ c.toNat) && decide (c.toNat < s + 10)) = some 48 := by
    rw [ndRangeStarts]
    rw [List.find?_cons_of_pos]
    simp only [Bool.and_eq_true, decide_eq_true_eq]
    omega
  simp only [decDigit?, hfind, digitVal]

theorem pyDigitsVal_ascii (l : List Char) (h : ∀ c ∈ l, isDigitCh c = true) :
    ∀ acc, pyDigitsVal acc l = digitsValAcc acc l := by
  induction l with
  | nil => intro acc; rfl
  | cons c cs ih =>
    intro acc
    have hc := h c (List.mem_cons_self c cs)
    cases cs with
    | nil =>
      simp only [pyDigitsVal, decDigit_ascii c hc, digitsValAcc, if_pos hc]
    | cons c2 cs2 =>
      simp only [pyDigitsVal, decDigit_ascii c hc, digitsValAcc, if_pos hc]
      exact ih (fun x hx => h x (List.mem_cons_of_mem c hx)) _

theorem pyIntDigits_eq_digitsVal (l : List Char) (h : ∀ c ∈ l, isDigitCh c = true)
    (hne : l ≠ []) : pyIntDigits? l = digitsVal? l := by
  cases l with
  | nil => exact absurd rfl hne
  | cons c cs =>
    have hc := h c (List.mem_cons_self c cs)
    simp only [pyIntDigits?, decDigit_ascii c hc, digitsVal?, digitsValAcc,
      if_pos hc, Nat.zero_mul, Nat.zero_add]
    exact pyDigitsVal_ascii cs (fun x hx => h x (List.mem_cons_of_mem c hx)) _

theorem isDigitCh_not_sign (c : Char) (h : isDigitCh c = true) :
    c ≠ '-' ∧ c ≠ '+' := by
  simp only [isDigitCh, Bool.and_eq_true, decide_eq_true_eq] at h
  constructor
  · intro habs; subst habs; revert h; decide
  · intro habs; subst habs; revert h; decide

theorem dropWhile_eq_self_of_none (p : Char → Bool) (l : List Char)
    (h : ∀ c ∈ l, p c = false) : l.dropWhile p = l := by
  cases l with
  | nil => rfl
  | cons a l =>
    rw [List.dropWhile_cons, if_neg]
    simp [h a (List.mem_cons_self a l)]

theorem stripChars_eq_self (l : List Char) (h : ∀ c ∈ l, isPySpace c = false) :
    stripChars l = l := by
  rw [stripChars, dropWhile_eq_self_of_none _ _ h,
    dropWhile_eq_self_of_none _ _ (by
      intro c hc
      exact h c (List.mem_reverse.1 hc)),
    List.reverse_reverse]

theorem pyInt_natRepr (n : Nat) : pyInt? (natRepr n) = some (n : Int) := by
  have hdig := natDigitsAux_all_digits (n + 1) n (by omega)
  have hstrip : stripChars (natRepr n).data = natDigits n := by
    apply stripChars_eq_self
    intro c hc
    exact isDigitCh_not_space c (hdig c hc)
  rcases hd : natDigits n with _ | ⟨c, cs⟩
  · exact absurd hd (natDigitsAux_ne_nil (n + 1) n (by omega))
  · have hc : isDigitCh c = true := by
      apply hdig
      rw [show natDigitsAux (n + 1) n = natDigits n from rfl, hd]
      exact List.mem_cons_self c cs
    have hsign := isDigitCh_not_sign c hc
    have h0 : digitsVal? (c :: cs) = some n := by
      rw [← hd]
      exact digitsVal_natDigits n
    have hall : ∀ x ∈ (c :: cs), isDigitCh x = true := by
      intro x hx
      apply hdig
      rw [show natDigitsAux (n + 1) n = natDigits n from rfl, hd]
      exact hx
    rw [pyInt?, hstrip, hd, pyIntOfChars, if_neg hsign.1, if_neg hsign.2,
      pyIntDigits_eq_digitsVal _ hall (by simp), h0]
    rfl

theorem pyInt_intRepr (z : Int) : pyInt? (intRepr z) = some z := by
  by_cases hz : z < 0
  · have hdig := natDigitsAux_all_digits (z.natAbs + 1) z.natAbs (by omega)
    have hdata : (intRepr z).data = '-' :: natDigits z.natAbs := by
      rw [intRepr, if_pos hz]
      rw [String.data_append]
      rfl
    have hstrip : stripChars (intRepr z).data = '-' :: natDigits z.natAbs := by
      rw [hdata]
      apply stripChars_eq_self
      intro c hc
      rw [List.mem_cons] at hc
      rcases hc with rfl | hc
      · decide
      · exact isDigitCh_not_space c (hdig c hc)
    rw [pyInt?, hstrip, pyIntOfChars, if_pos rfl,
      pyIntDigits_eq_digitsVal (natDigits z.natAbs) (fun x hx => hdig x hx)
        (natDigitsAux_ne_nil (z.natAbs + 1) z.natAbs (by omega)),
      digitsVal_natDigits]
    have hz2 : -((z.natAbs : Int)) = z := by omega
    show some (-((z.natAbs : Int))) = some z
    rw [hz2]
  · rw [intRepr, if_neg hz, pyInt_natRepr]
    congr 1
    omega

theorem pyInt_pad2 (n : Nat) : pyInt? (pad2 n) = some (n : Int) := by
  by_cases hn : n < 10
  · have hdig := natDigitsAux_all_digits (n + 1) n (by omega)
    have hdata : (pad2 n).data = '0' :: natDigits n := by
      rw [pad2, if_pos hn, String.data_append]
      rfl
    have hstrip : stripChars (pad2 n).data = '0' :: natDigits n := by
      rw [hdata]
      apply stripChars_eq_self
      intro c hc
      rw [List.mem_cons] at hc
      rcases hc with rfl | hc
      · decide
      · exact isDigitCh_not_space c (hdig c hc)
    have h0 : digitsVal? ('0' :: natDigits n) = some n := by
      show digitsValAcc 0 ('0' :: natDigits n) = some n
      rw [digitsValAcc, if_pos (by decide : isDigitCh '0' = true)]
      have h00 : 0 * 10 + digitVal '0' = 0 := by decide
      rw [h00]
      have hval := natDigitsAux_val (n + 1) n (by omega) 0
      rw [show natDigits n = natDigitsAux (n + 1) n from rfl, hval]
      simp
    have hall : ∀ x ∈ ('0' :: natDigits n), isDigitCh x = true := by
      intro x hx
      rw [List.mem_cons] at hx
      rcases hx with rfl | hx
      · decide
      · exact hdig x hx
    rw [pyInt?, hstrip, pyIntOfChars,
      if_neg (by decide : ¬('0' : Char) = '-'),
      if_neg (by decide : ¬('0' : Char) = '+'),
      pyIntDigits_eq_digitsVal _ hall (by simp), h0]
    rfl
  · rw [pad2, if_neg hn, pyInt_natRepr]

theorem pad2_ne_empty (n : Nat) : pad2 n ≠ "" := by
  have hne := natDigitsAux_ne_nil (n + 1) n (by omega)
  rw [pad2]
  by_cases hn : n < 10
  · rw [if_pos hn]
    intro habs
    have := congrArg String.data habs
    rw [String.data_append] at this
    simp at this
  · rw [if_neg hn]
    intro habs
    have := congrArg String.data habs
    simp only [natRepr] at this
    exact hne (by simpa using this)

theorem intRepr_ne_empty (z : Int) : intRepr z ≠ "" := by
  have hne := natDigitsAux_ne_nil (z.natAbs + 1) z.natAbs (by omega)
  rw [intRepr]
  by_cases hz : z < 0
  · rw [if_pos hz]
    intro habs
    have := congrArg String.data habs
    rw [String.data_append] at this
    simp at this
  · rw [if_neg hz]
    intro habs
    have := congrArg String.data habs
    simp only [natRepr] at this
    exact hne (by simpa using this)

/-! ## Helper lemmas: clock-string parsing -/

theorem pySplit_colon_empty : pySplit ':' "" = [""] := by decide

theorem pyStrip_ne_of_split (v : String) (ps : List String)
    (hsplit : pySplit ':' (pyStrip v) = ps) (hlen : ps.length ≠ 1) :
    pyStrip v ≠ "" := by
  intro habs
  rw [habs, pySplit_colon_empty] at hsplit
  exact hlen (by rw [← hsplit]; rfl)

theorem parseGtfs_split3 (v p0 p1 p2 : String) (a b c : Int)
    (hsplit : pySplit ':' (pyStrip v) = [p0, p1, p2])
    (h0 : pyInt? p0 = some a) (h1 : pyInt? p1 = some b) (h2 : pyInt? p2 = some c)
    (hne : p2 ≠ "") :
    parseGtfsTimeToSeconds v = a * 3600 + b * 60 + c := by
  have hsne := pyStrip_ne_of_split v _ hsplit (by simp)
  simp only [parseGtfsTimeToSeconds, if_neg hsne, hsplit, h0, h1, if_neg hne, h2]

theorem parseGtfs_split2 (v p0 p1 : String) (a b : Int)
    (hsplit : pySplit ':' (pyStrip v) = [p0, p1])
    (h0 : pyInt? p0 = some a) (h1 : pyInt? p1 = some b) :
    parseGtfsTimeToSeconds v = a * 3600 + b * 60 := by
  have hsne := pyStrip_ne_of_split v _ hsplit (by simp)
  simp only [parseGtfsTimeToSeconds, if_neg hsne, hsplit, h0, h1]

theorem parseGtfs_short (v : String)
    (h : (pySplit ':' (pyStrip v)).length < 2) : parseGtfsTimeToSeconds v = 0 := by
  by_cases hsne : pyStrip v = ""
  · simp only [parseGtfsTimeToSeconds, if_pos hsne]
  · rcases hs : pySplit ':' (pyStrip v) with _ | ⟨x, _ | ⟨y, rest⟩⟩
    · simp only [parseGtfsTimeToSeconds, if_neg hsne, hs]
    · simp only [parseGtfsTimeToSeconds, if_neg hsne, hs]
    · rw [hs] at h
      simp only [List.length_cons] at h
      omega

theorem parseGtfs_badfield (v p0 p1 : String) (rest : List String)
    (hsplit : pySplit ':' (pyStrip v) = p0 :: p1 :: rest)
    (h : pyInt? p0 = none ∨ pyInt? p1 = none) :
    parseGtfsTimeToSeconds v = 0 := by
  have hsne := pyStrip_ne_of_split v _ hsplit (by simp)
  rcases hq0 : pyInt? p0 with _ | a
  · rcases hq1 : pyInt? p1 with _ | b
    · simp only [parseGtfsTimeToSeconds, if_neg hsne, hsplit, hq0, hq1]
    · simp only [parseGtfsTimeToSeconds, if_neg hsne, hsplit, hq0, hq1]
  · rcases hq1 : pyInt? p1 with _ | b
    · simp only [parseGtfsTimeToSeconds, if_neg hsne, hsplit, hq0, hq1]
    · rw [hq0, hq1] at h
      rcases h with h | h <;> exact absurd h (by simp)

theorem parseGtfs_badthird (v p0 p1 p2 : String) (rest : List String)
    (hsplit : pySplit ':' (pyStrip v) = p0 :: p1 :: p2 :: rest)
    (h2 : pyInt? p2 = none) (hne : p2 ≠ "") :
    parseGtfsTimeToSeconds v = 0 := by
  have hsne := pyStrip_ne_of_split v _ hsplit (by simp)
  rcases hq0 : pyInt? p0 with _ | a
  · simp only [parseGtfsTimeToSeconds, if_neg hsne, hsplit, hq0]
  · rcases hq1 : pyInt? p1 with _ | b
    · simp only [parseGtfsTimeToSeconds, if_neg hsne, hsplit, hq0, hq1]
    · simp only [parseGtfsTimeToSeconds, if_neg hsne, hsplit, hq0, hq1, if_neg hne, h2]

/-! ## C6 : clock-string round trip -/

theorem seconds_to_time_clock (H : Int) (MM SS : Nat) (hm : MM < 60) (hs : SS < 60) :
    seconds_to_time (H * 3600 + MM * 60 + SS) = zeroPaddedHHMM H MM := by
  have e1 : (H * 3600 + (MM : Int) * 60 + (SS : Int)).fdiv 3600 = H := by
    rw [Int.fdiv_eq_ediv _ (by norm_num)]
    omega
  have e2 : (H * 3600 + (MM : Int) * 60 + (SS : Int)).fmod 3600 =
      (MM : Int) * 60 + SS := by
    rw [Int.fmod_eq_emod _ (by norm_num)]
    omega
  have e3 : ((MM : Int) * 60 + (SS : Int)).fdiv 60 = (MM : Int) := by
    rw [Int.fdiv_eq_ediv _ (by norm_num)]
    omega
  rw [seconds_to_time, e1, e2, e3, zeroPaddedHHMM]

/-- C6 counterexample: the claimed equivalence fails right-to-left.  For the
clock string "24:00:00" the parsed value is 86 400 = 24·3600, not below
24·3600, yet formatting it still yields exactly the zero-padded HH:MM
portion "24:00" of the input. -/
theorem c6_roundtrip_counterexample :
    seconds_to_time (parseGtfsTimeToSeconds "24:00:00") = zeroPaddedHHMM 24 0 ∧
    ¬(parseGtfsTimeToSeconds "24:00:00" < 24 * 3600) :=
  ⟨by decide, by decide⟩

/-- C6 (amended): for every clock string "H:MM:SS" (integer hour field,
two-digit minute and second fields below 60), formatting the parsed seconds
with `seconds_to_time` always yields the zero-padded HH:MM portion of the
input — for parsed values below 24·3600 and equally for larger ones; for
parsed values at or above 24·3600 the hour field exceeds 23 and is written
out unchanged (not wrapped modulo 24). -/
theorem c6_roundtrip_amended (v : String) (H : Int) (MM SS : Nat)
    (hsplit : pySplit ':' (pyStrip v) = [intRepr H, pad2 MM, pad2 SS])
    (hm : MM < 60) (hs : SS < 60) :
    parseGtfsTimeToSeconds v = H * 3600 + MM * 60 + SS ∧
    seconds_to_time (H * 3600 + MM * 60 + SS) = zeroPaddedHHMM H MM ∧
    (24 * 3600 ≤ H * 3600 + MM * 60 + SS → 23 < H) := by
  refine ⟨?_, seconds_to_time_clock H MM SS hm hs, ?_⟩
  · exact parseGtfs_split3 v _ _ _ H MM SS hsplit (pyInt_intRepr H)
      (pyInt_pad2 MM) (pyInt_pad2 SS) (pad2_ne_empty SS)
  · intro h
    omega

/-- Witness for C6 (amended) at the daytime string "7:05:09" and the
overnight string "25:10:00". -/
theorem c6_roundtrip_amended_witness :
    parseGtfsTimeToSeconds "7:05:09" = 7 * 3600 + (5 : Nat) * 60 + (9 : Nat) ∧
    seconds_to_time (25 * 3600 + (10 : Nat) * 60 + (0 : Nat)) = zeroPaddedHHMM 25 10 ∧
    (23 : Int) < 25 :=
  ⟨(c6_roundtrip_amended "7:05:09" 7 5 9 (by decide) (by decide) (by decide)).1,
   (c6_roundtrip_amended "25:10:00" 25 10 0 (by decide) (by decide) (by decide)).2.1,
   (c6_roundtrip_amended "25:10:00" 25 10 0 (by decide) (by decide) (by decide)).2.2
     (by decide)⟩

/-! ## C8 : stop_times loading -/

/-- C8: the `_load_stop_times` row loop drops a row exactly when its trip id
or stop id strips to empty or its stop_sequence field is not a parseable
integer; an accepted row always carries the parsed times of its two clock
fields, where parsing yields hours·3600 + minutes·60 + seconds on colon-split
fields that `int()` accepts — zero-padded or not — ("H:MM" and "H:MM:SS"
shapes) and 0 on malformed fields (fewer than two colon-separated parts, or
a non-integer part), without affecting acceptance. -/
theorem c8_stop_times_rows :
    (∀ row : StopTimeRow, processStopTimeRow row = none ↔
      (pyStrip (row.trip_id.getD "") = "" ∨ pyStrip (row.stop_id.getD "") = "" ∨
        pyInt? (pyStrip (row.stop_sequence.getD "")) = none)) ∧
    (∀ row e, processStopTimeRow row = some e →
      e.2.arrival_sec = parseGtfsTimeToSeconds (pyStrip (row.arrival_time.getD "")) ∧
      e.2.departure_sec = parseGtfsTimeToSeconds (pyStrip (row.departure_time.getD ""))) ∧
    (∀ (v p0 p1 : String) (a b : Int), pySplit ':' (pyStrip v) = [p0, p1] →
      pyInt? p0 = some a → pyInt? p1 = some b →
      parseGtfsTimeToSeconds v = a * 3600 + b * 60) ∧
    (∀ (v p0 p1 p2 : String) (a b c : Int),
      pySplit ':' (pyStrip v) = [p0, p1, p2] →
      pyInt? p0 = some a → pyInt? p1 = some b → pyInt? p2 = some c →
      parseGtfsTimeToSeconds v = a * 3600 + b * 60 + c) ∧
    (∀ v : String, (pySplit ':' (pyStrip v)).length < 2 →
      parseGtfsTimeToSeconds v = 0) ∧
    (∀ (v p0 p1 : String) (rest : List String),
      pySplit ':' (pyStrip v) = p0 :: p1 :: rest →
      pyInt? p0 = none ∨ pyInt? p1 = none → parseGtfsTimeToSeconds v = 0) := by
  refine ⟨?_, ?_, ?_, ?_, parseGtfs_short, parseGtfs_badfield⟩
  · intro row
    by_cases h1 : pyStrip (row.trip_id.getD "") = "" ∨ pyStrip (row.stop_id.getD "") = ""
    · simp only [processStopTimeRow, if_pos h1, true_iff]
      tauto
    · rcases hseq : pyInt? (pyStrip (row.stop_sequence.getD "")) with _ | seq
      · simp [processStopTimeRow, h1, hseq]
      · simp [processStopTimeRow, h1, hseq]
  · intro row e h
    by_cases h1 : pyStrip (row.trip_id.getD "") = "" ∨ pyStrip (row.stop_id.getD "") = ""
    · simp [processStopTimeRow, h1] at h
    · rcases hseq : pyInt? (pyStrip (row.stop_sequence.getD "")) with _ | seq
      · simp [processStopTimeRow, h1, hseq] at h
      · simp only [processStopTimeRow, if_neg h1, hseq] at h
        injection h with h
        subst h
        exact ⟨rfl, rfl⟩
  · intro v p0 p1 a b hsplit h0 h1
    exact parseGtfs_split2 v p0 p1 a b hsplit h0 h1
  · intro v p0 p1 p2 a b c hsplit h0 h1 h2
    refine parseGtfs_split3 v p0 p1 p2 a b c hsplit h0 h1 h2 ?_
    intro habs
    rw [habs, show pyInt? "" = none from rfl] at h2
    exact Option.noConfusion h2

/-- Witness for C8 at concrete rows: a row whose stop_sequence uses an
`int()`-style underscore separator is still governed by the drop criterion,
the parse-shape parts at a zero-padded "08:30:00" and a short "8:05", and
malformed strings parse to 0. -/
theorem c8_stop_times_rows_witness :
    (processStopTimeRow ⟨some "T1", some "A", some "1_0", some "08:30:00", some "8:05"⟩ =
      none ↔ (pyStrip "T1" = "" ∨ pyStrip "A" = "" ∨ pyInt? (pyStrip "1_0") = none)) ∧
    parseGtfsTimeToSeconds "8:05" = 8 * 3600 + 5 * 60 ∧
    parseGtfsTimeToSeconds "08:30:00" = 8 * 3600 + 30 * 60 + 0 ∧
    parseGtfsTimeToSeconds "garbage" = 0 ∧
    parseGtfsTimeToSeconds "ab:cd" = 0 :=
  ⟨c8_stop_times_rows.1 ⟨some "T1", some "A", some "1_0", some "08:30:00", some "8:05"⟩,
   c8_stop_times_rows.2.2.1 "8:05" "8" "05" 8 5 (by decide) (by decide) (by decide),
   c8_stop_times_rows.2.2.2.1 "08:30:00" "08" "30" "00" 8 30 0 (by decide) (by decide)
     (by decide) (by decide),
   c8_stop_times_rows.2.2.2.2.1 "garbage" (by decide),
   c8_stop_times_rows.2.2.2.2.2 "ab:cd" "ab" "cd" [] (by decide) (Or.inl (by decide))⟩

/-! ## C9 : find_route failure branches -/

/-- C9: `find_route` returns the empty itinerary list (raising nothing — the
embedding is a total function) whenever the date string parses neither as
YYYYMMDD nor as YYYY-MM-DD, whenever the time string does not parse as
hours:minutes, whenever either endpoint name fails resolution, and whenever
both names resolve to the same stop id. -/
theorem c9_find_route_failures :
    (∀ (data : GtfsData) (sn en date time : String) (k : Nat),
      parseYmd8 date = none → parseYmdDashed date = none →
      find_route data sn en date time k = []) ∧
    (∀ (data : GtfsData) (sn en date time : String) (k : Nat),
      parseTimeHHMM time = none → find_route data sn en date time k = []) ∧
    (∀ (data : GtfsData) (sn en date time : String) (k : Nat),
      findStopId data.stops sn = none → find_route data sn en date time k = []) ∧
    (∀ (data : GtfsData) (sn en date time : String) (k : Nat),
      findStopId data.stops en = none → find_route data sn en date time k = []) ∧
    (∀ (data : GtfsData) (sn en date time : String) (k : Nat) (i : String),
      findStopId data.stops sn = some i → findStopId data.stops en = some i →
      find_route data sn en date time k = []) := by
  have hdate : ∀ date : String, parseYmd8 date = none → parseYmdDashed date = none →
      parsePyDate date = none := by
    intro date h8 hd
    rw [parsePyDate]
    by_cases hlen : date.length = 8
    · rw [if_pos hlen]; exact h8
    · rw [if_neg hlen]; exact hd
  refine ⟨?_, ?_, ?_, ?_, ?_⟩
  · intro data sn en date time k h8 hd
    simp only [find_route, hdate date h8 hd]
  · intro data sn en date time k ht
    rcases hpd : parsePyDate date with _ | d
    · simp only [find_route, hpd]
    · simp only [find_route, hpd, ht]
  · intro data sn en date time k hs
    rcases hpd : parsePyDate date with _ | d
    · simp only [find_route, hpd]
    · rcases hpt : parseTimeHHMM time with _ | t
      · simp only [find_route, hpd, hpt]
      · simp only [find_route, hpd, hpt, hs]
  · intro data sn en date time k he
    rcases hpd : parsePyDate date with _ | d
    · simp only [find_route, hpd]
    · rcases hpt : parseTimeHHMM time with _ | t
      · simp only [find_route, hpd, hpt]
      · rcases hfs : findStopId data.stops sn with _ | i
        · simp only [find_route, hpd, hpt, hfs]
        · simp only [find_route, hpd, hpt, hfs, he]
  · intro data sn en date time k i hs he
    rcases hpd : parsePyDate date with _ | d
    · simp only [find_route, hpd]
    · rcases hpt : parseTimeHHMM time with _ | t
      · simp only [find_route, hpd, hpt]
      · simp only [find_route, hpd, hpt, hs, he]
        simp

/-- Witness for C9 at a one-stop feed: a bad date, a bad time ("8"),
unresolvable names, and identical endpoints (the names "Zug" and "zug" both
resolve to stop "S1"). -/
theorem c9_find_route_failures_witness :
    find_route ⟨[⟨"S1", "Zug", ""⟩], [], [], [], [], [], [], []⟩
      "Zug" "Zug" "2025-13-01" "08:00" 3 = [] ∧
    find_route ⟨[⟨"S1", "Zug", ""⟩], [], [], [], [], [], [], []⟩
      "Zug" "Zug" "2025-12-15" "8" 3 = [] ∧
    find_route ⟨[⟨"S1", "Zug", ""⟩], [], [], [], [], [], [], []⟩
      "Nowhere" "Zug" "2025-12-15" "08:00" 3 = [] ∧
    find_route ⟨[⟨"S1", "Zug", ""⟩], [], [], [], [], [], [], []⟩
      "Zug" "Nowhere" "2025-12-15" "08:00" 3 = [] ∧
    find_route ⟨[⟨"S1", "Zug", ""⟩], [], [], [], [], [], [], []⟩
      "Zug" "zug" "2025-12-15" "08:00" 3 = [] :=
  ⟨c9_find_route_failures.1 _ "Zug" "Zug" "2025-13-01" "08:00" 3 (by decide) (by decide),
   c9_find_route_failures.2.1 _ "Zug" "Zug" "2025-12-15" "8" 3 (by decide),
   c9_find_route_failures.2.2.1 _ "Nowhere" "Zug" "2025-12-15" "08:00" 3 (by decide),
   c9_find_route_failures.2.2.2.1 _ "Zug" "Nowhere" "2025-12-15" "08:00" 3 (by decide),
   c9_find_route_failures.2.2.2.2 _ "Zug" "zug" "2025-12-15" "08:00" 3 "S1"
     (by decide) (by decide)⟩

/-! ## Helper lemmas: label store membership -/

theorem insertSortedLabel_mem (lab : Label) (ls : List Label) (l : Label)
    (h : l ∈ insertSortedLabel lab ls) : l = lab ∨ l ∈ ls := by
  induction ls with
  | nil =>
    simp only [insertSortedLabel, List.mem_singleton] at h
    exact Or.inl h
  | cons x xs ih =>
    simp only [insertSortedLabel] at h
    by_cases hc : x.arrival ≤ lab.arrival
    · rw [if_pos hc] at h
      rw [List.mem_cons] at h
      rcases h with rfl | h
      · exact Or.inr (List.mem_cons_self l xs)
      · rcases ih h with h | h
        · exact Or.inl h
        · exact Or.inr (List.mem_cons_of_mem x h)
    · rw [if_neg hc] at h
      rw [List.mem_cons] at h
      rcases h with rfl | h
      · exact Or.inl rfl
      · exact Or.inr h

theorem tryInsertLabel_mem (maxLabels : Nat) (labels : List Label) (lab l : Label)
    (h : l ∈ (tryInsertLabel maxLabels labels lab).2) : l = lab ∨ l ∈ labels := by
  rw [tryInsertLabel] at h
  rcases hlast : labels.getLast? with _ | last
  · rw [hlast] at h
    simp only at h
    by_cases hlen : maxLabels < (insertSortedLabel lab labels).length
    · rw [if_pos hlen] at h
      exact insertSortedLabel_mem lab labels l
        (List.dropLast_sublist _ |>.subset h)
    · rw [if_neg hlen] at h
      exact insertSortedLabel_mem lab labels l h
  · rw [hlast] at h
    simp only at h
    by_cases hp : labels.length ≥ maxLabels ∧ last.arrival ≤ lab.arrival
    · rw [if_pos hp] at h
      exact Or.inr h
    · rw [if_neg hp] at h
      by_cases hdup : labels.any (labelDup · lab)
      · rw [if_pos hdup] at h
        exact Or.inr h
      · rw [if_neg hdup] at h
        simp only at h
        by_cases hlen : maxLabels < (insertSortedLabel lab labels).length
        · rw [if_pos hlen] at h
          exact insertSortedLabel_mem lab labels l
            (List.dropLast_sublist _ |>.subset h)
        · rw [if_neg hlen] at h
          exact insertSortedLabel_mem lab labels l h

/-! ## Helper lemmas: the scan preserves label well-formedness -/

theorem processLabels_inv (P : Label → Prop) (ends : List String)
    (maxRoutes maxLabels : Nat) (c : Conn)
    (hstepP : ∀ lab, P lab → lab.stopId = c.dep_stop → lab.arrival ≤ c.dep_time →
      P (mkStepLabel c lab)) :
    ∀ (labs : List Label) (st : StMap) (worst : Option Int), stInv P st →
      (∀ lab ∈ labs, P lab ∧ lab.stopId = c.dep_stop) →
      stInv P (processLabels ends maxRoutes maxLabels c labs st worst).1 := by
  intro labs
  induction labs with
  | nil => intro st worst hst _; exact hst
  | cons lab rest ih =>
    intro st worst hst hlabs
    rw [processLabels]
    by_cases hguard : c.dep_time < lab.arrival
    · rw [if_pos hguard]
      exact hst
    · rw [if_neg hguard]
      simp only
      apply ih
      · intro s l hl
        by_cases hs : s = c.arr_stop
        · subst hs
          rw [updMap, if_pos rfl] at hl
          rcases tryInsertLabel_mem maxLabels (st c.arr_stop) (mkStepLabel c lab) l hl with
            rfl | hl
          · have hlab := hlabs lab (List.mem_cons_self lab rest)
            exact ⟨hstepP lab hlab.1 hlab.2 (by omega), rfl⟩
          · exact hst c.arr_stop l hl
        · rw [updMap, if_neg hs] at hl
          exact hst s l hl
      · intro l hl
        exact hlabs l (List.mem_cons_of_mem lab hl)

theorem scanConns_inv (P : Label → Prop) (ends : List String)
    (maxRoutes maxLabels : Nat) :
    ∀ (conns : List Conn),
      (∀ c ∈ conns, ∀ lab, P lab → lab.stopId = c.dep_stop →
        lab.arrival ≤ c.dep_time → P (mkStepLabel c lab)) →
      ∀ (st : StMap) (worst : Option Int), stInv P st →
      stInv P (scanConns ends maxRoutes maxLabels conns st worst) := by
  intro conns
  induction conns with
  | nil => intro _ st worst hst; exact hst
  | cons c rest ih =>
    intro hstep st worst hst
    have hstepc := hstep c (List.mem_cons_self c rest)
    have hstepr : ∀ c' ∈ rest, ∀ lab, P lab → lab.stopId = c'.dep_stop →
        lab.arrival ≤ c'.dep_time → P (mkStepLabel c' lab) := by
      intro c' hc'
      exact hstep c' (List.mem_cons_of_mem c hc')
    have hproc := processLabels_inv P ends maxRoutes maxLabels c hstepc
      (st c.dep_stop) st worst hst (fun lab hl => hst c.dep_stop lab hl)
    simp only [scanConns]
    rcases worst with _ | w
    · simp only
      by_cases hempty : (st c.dep_stop).isEmpty
      · rw [if_pos hempty]
        exact ih hstepr st none hst
      · rw [if_neg hempty]
        exact ih hstepr _ _ hproc
    · simp only
      by_cases hstop : w < c.dep_time
      · rw [if_pos hstop]
        exact hst
      · rw [if_neg hstop]
        by_cases hempty : (st c.dep_stop).isEmpty
        · rw [if_pos hempty]
          exact ih hstepr st (some w) hst
        · rw [if_neg hempty]
          exact ih hstepr _ _ hproc

theorem initState_inv (P : Label → Prop) (startIds : List String) (t : Int)
    (hP : ∀ sid, P (Label.start sid t)) : stInv P (initState startIds t) := by
  rw [initState]
  have : ∀ (ids : List String) (st : StMap), stInv P st →
      stInv P (ids.foldl (fun st sid => updMap st sid (st sid ++ [Label.start sid t])) st) := by
    intro ids
    induction ids with
    | nil => intro st hst; exact hst
    | cons sid rest ih =>
      intro st hst
      rw [List.foldl_cons]
      apply ih
      intro s l hl
      by_cases hs : s = sid
      · subst hs
        rw [updMap, if_pos rfl] at hl
        rcases List.mem_append.1 hl with hl | hl
        · exact hst s l hl
        · rw [List.mem_singleton] at hl
          subst hl
          exact ⟨hP s, rfl⟩
      · rw [updMap, if_neg hs] at hl
        exact hst s l hl
  apply this
  intro s l hl
  simp [emptyStMap] at hl

/-! ## Helper lemmas: reconstruction of a well-formed label chain -/

theorem chainedLabel_step (c : Conn) (lab : Label) (h : chainedLabel lab)
    (hstop : lab.stopId = c.dep_stop) (harr : lab.arrival ≤ c.dep_time) :
    chainedLabel (mkStepLabel c lab) := by
  rw [mkStepLabel, chainedLabel]
  exact ⟨h, hstop, harr⟩

theorem strictLabel_step (c : Conn) (lab : Label) (h : strictLabel lab)
    (hc : c.dep_time < c.arr_time) : strictLabel (mkStepLabel c lab) := by
  rw [mkStepLabel, strictLabel]
  exact ⟨h, hc⟩

theorem collect_head (stop : String) (arr : Int) (p : Label) (trip rt ds : String)
    (dt : Int) :
    collectConnsRev (.step stop arr p trip rt ds dt) =
      ⟨trip, rt, ds, dt, stop, arr⟩ :: collectConnsRev p := rfl

theorem collect_chain (l : Label) (h : chainedLabel l) :
    List.Chain' (flip linkChain) (collectConnsRev l) := by
  induction l with
  | start s a => exact List.chain'_nil
  | step stop arr p trip rt ds dt ih =>
    rw [chainedLabel] at h
    obtain ⟨hp, hstop, harr⟩ := h
    rw [collect_head]
    rw [List.chain'_cons']
    refine ⟨?_, ih hp⟩
    intro b hb
    cases p with
    | start s a => simp [collectConnsRev] at hb
    | step ps pa pp ptrip prt pds pdt =>
      rw [collect_head] at hb
      simp only [List.head?_cons, Option.mem_def, Option.some_inj] at hb
      subst hb
      constructor
      · show ps = ds
        exact hstop
      · show pa ≤ dt
        exact harr

theorem collect_strict (l : Label) (h : strictLabel l) :
    ∀ link ∈ collectConnsRev l, link.depTime < link.arrTime := by
  induction l with
  | start s a => intro link hl; simp [collectConnsRev] at hl
  | step stop arr p trip rt ds dt ih =>
    rw [strictLabel] at h
    intro link hl
    rw [collect_head, List.mem_cons] at hl
    rcases hl with rfl | hl
    · exact h.2
    · exact ih h.1 link hl

theorem optimize_head (cur : LinkT) (ls : List LinkT) :
    ∃ hd tl, optimizeLinks cur ls = hd :: tl ∧ hd.depStop = cur.depStop ∧
      hd.depTime = cur.depTime ∧ hd.trip = cur.trip := by
  induction ls generalizing cur with
  | nil => exact ⟨cur, [], rfl, rfl, rfl, rfl⟩
  | cons l rest ih =>
    rw [optimizeLinks]
    by_cases hc : l.trip = cur.trip ∧ cur.arrStop = l.depStop ∧ cur.arrTime ≤ l.depTime
    · rw [if_pos hc]
      obtain ⟨hd, tl, heq, h1, h2, h3⟩ := ih { cur with arrStop := l.arrStop, arrTime := l.arrTime }
      exact ⟨hd, tl, heq, h1, h2, h3⟩
    · rw [if_neg hc]
      exact ⟨cur, optimizeLinks l rest, rfl, rfl, rfl, rfl⟩

theorem optimize_chainTrip (cur : LinkT) (ls : List LinkT)
    (hchain : List.Chain' linkChain (cur :: ls)) :
    List.Chain' (fun a b => linkChain a b ∧ a.trip ≠ b.trip) (optimizeLinks cur ls) := by
  induction ls generalizing cur with
  | nil => simp [optimizeLinks]
  | cons l rest ih =>
    rw [List.chain'_cons] at hchain
    obtain ⟨hcl, hchain'⟩ := hchain
    rw [optimizeLinks]
    by_cases hc : l.trip = cur.trip ∧ cur.arrStop = l.depStop ∧ cur.arrTime ≤ l.depTime
    · rw [if_pos hc]
      apply ih
      rw [List.chain'_cons']
      refine ⟨?_, (List.chain'_cons'.1 hchain').2⟩
      intro b hb
      have hlb := (List.chain'_cons'.1 hchain').1 b hb
      exact ⟨hlb.1, hlb.2⟩
    · rw [if_neg hc]
      rw [List.chain'_cons']
      refine ⟨?_, ih l hchain'⟩
      intro b hb
      obtain ⟨hd, tl, heq, h1, h2, h3⟩ := optimize_head l rest
      rw [heq] at hb
      simp only [List.head?_cons, Option.mem_def, Option.some_inj] at hb
      subst hb
      have htrip : l.trip ≠ cur.trip := by
        intro habs
        exact hc ⟨habs, hcl.1, hcl.2⟩
      refine ⟨⟨?_, ?_⟩, ?_⟩
      · rw [h1]; exact hcl.1
      · rw [h2]; exact hcl.2
      · rw [h3]; exact fun habs => htrip habs.symm

theorem optimize_strict (cur : LinkT) (ls : List LinkT)
    (hchain : List.Chain' linkChain (cur :: ls))
    (hstrict : ∀ x ∈ cur :: ls, x.depTime < x.arrTime) :
    ∀ x ∈ optimizeLinks cur ls, x.depTime < x.arrTime := by
  induction ls generalizing cur with
  | nil =>
    intro x hx
    simp only [optimizeLinks, List.mem_singleton] at hx
    subst hx
    exact hstrict x (List.mem_cons_self x [])
  | cons l rest ih =>
    rw [List.chain'_cons] at hchain
    obtain ⟨hcl, hchain'⟩ := hchain
    intro x hx
    rw [optimizeLinks] at hx
    by_cases hc : l.trip = cur.trip ∧ cur.arrStop = l.depStop ∧ cur.arrTime ≤ l.depTime
    · rw [if_pos hc] at hx
      refine ih { cur with arrStop := l.arrStop, arrTime := l.arrTime } ?_ ?_ x hx
      · rw [List.chain'_cons']
        refine ⟨?_, (List.chain'_cons'.1 hchain').2⟩
        intro b hb
        have hlb := (List.chain'_cons'.1 hchain').1 b hb
        exact ⟨hlb.1, hlb.2⟩
      · intro y hy
        rw [List.mem_cons] at hy
        rcases hy with rfl | hy
        · show cur.depTime < l.arrTime
          have h1 : cur.depTime < cur.arrTime :=
            hstrict cur (List.mem_cons_self cur _)
          have h2 : l.depTime < l.arrTime :=
            hstrict l (List.mem_cons_of_mem cur (List.mem_cons_self l rest))
          omega
        · exact hstrict y (List.mem_cons_of_mem cur (List.mem_cons_of_mem l hy))
    · rw [if_neg hc] at hx
      rw [List.mem_cons] at hx
      rcases hx with rfl | hx
      · exact hstrict x (List.mem_cons_self x _)
      · exact ih l hchain' (fun y hy => hstrict y (List.mem_cons_of_mem cur hy)) x hx

theorem mkSegs_proj (stopName : String → String) :
    ∀ (prev? : Option LinkT) (ls : List LinkT),
      (mkSegmentsAux stopName prev? ls).map
        (fun s => (s.trip_id, s.departure_time, s.arrival_time)) =
      ls.map (fun l => (l.trip, l.depTime, l.arrTime)) := by
  intro prev? ls
  induction ls generalizing prev? with
  | nil => rfl
  | cons l rest ih =>
    simp only [mkSegmentsAux, List.map_cons]
    rw [ih (some l)]

theorem reconstruct_good (stopName : String → String) (l : Label)
    (hch : chainedLabel l) (hst : strictLabel l) (segs : List RouteSegment)
    (h : reconstructRoute stopName l = some segs) :
    (∀ s ∈ segs, s.departure_time < s.arrival_time) ∧
    List.Chain' (fun a b : RouteSegment => a.arrival_time ≤ b.departure_time) segs ∧
    List.Chain' (fun a b : RouteSegment => a.trip_id ≠ b.trip_id) segs := by
  rw [reconstructRoute] at h
  rcases hrev : (collectConnsRev l).reverse with _ | ⟨lk, ls⟩
  · rw [hrev] at h
    simp at h
  · rw [hrev] at h
    simp only [Option.some_inj] at h
    subst h
    have hchain : List.Chain' linkChain (lk :: ls) := by
      rw [← hrev, List.chain'_reverse]
      exact collect_chain l hch
    have hstrict : ∀ x ∈ lk :: ls, x.depTime < x.arrTime := by
      intro x hx
      rw [← hrev] at hx
      exact collect_strict l hst x (List.mem_reverse.1 hx)
    have hopt := optimize_chainTrip lk ls hchain
    have hopts := optimize_strict lk ls hchain hstrict
    have hproj := mkSegs_proj stopName none (optimizeLinks lk ls)
    refine ⟨?_, ?_, ?_⟩
    · intro s hs
      have hmem : (s.trip_id, s.departure_time, s.arrival_time) ∈
          (optimizeLinks lk ls).map (fun x => (x.trip, x.depTime, x.arrTime)) := by
        rw [← hproj]
        exact List.mem_map_of_mem _ hs
      rcases List.mem_map.1 hmem with ⟨x, hx, hxeq⟩
      have hx2 := hopts x hx
      have heq : x.trip = s.trip_id ∧ x.depTime = s.departure_time ∧
          x.arrTime = s.arrival_time := by
        simpa [Prod.ext_iff] using hxeq
      rw [← heq.2.1, ← heq.2.2]
      exact hx2
    · have h0 : List.Chain' (fun p q : String × Int × Int => p.2.2 ≤ q.2.1)
          ((mkSegmentsAux stopName none (optimizeLinks lk ls)).map
            (fun s => (s.trip_id, s.departure_time, s.arrival_time))) := by
        rw [hproj, List.chain'_map]
        exact hopt.imp (fun a b hab => hab.1.2)
      rw [List.chain'_map] at h0
      exact h0
    · have h0 : List.Chain' (fun p q : String × Int × Int => p.1 ≠ q.1)
          ((mkSegmentsAux stopName none (optimizeLinks lk ls)).map
            (fun s => (s.trip_id, s.departure_time, s.arrival_time))) := by
        rw [hproj, List.chain'_map]
        exact hopt.imp (fun a b hab => hab.2)
      rw [List.chain'_map] at h0
      exact h0

/-! ## Helper lemmas: the recovery loop -/

theorem recoverLoop_mem (stopName : String → String) (maxRoutes : Nat) :
    ∀ (labs : List Label) (seen : List (List (String × String × Int × Int)))
      (acc : List (List RouteSegment)) (r : List RouteSegment),
      r ∈ recoverLoop stopName maxRoutes labs seen acc →
      r ∈ acc ∨ ∃ lab ∈ labs, reconstructRoute stopName lab = some r := by
  intro labs
  induction labs with
  | nil =>
    intro seen acc r hr
    exact Or.inl hr
  | cons lab rest ih =>
    intro seen acc r hr
    rw [recoverLoop] at hr
    rcases hrec : reconstructRoute stopName lab with _ | segs
    · rw [hrec] at hr
      rcases ih seen acc r hr with h | ⟨lab2, h1, h2⟩
      · exact Or.inl h
      · exact Or.inr ⟨lab2, List.mem_cons_of_mem lab h1, h2⟩
    · rw [hrec] at hr
      simp only at hr
      by_cases hseen : routeKey segs ∈ seen
      · rw [if_pos hseen] at hr
        rcases ih seen acc r hr with h | ⟨lab2, h1, h2⟩
        · exact Or.inl h
        · exact Or.inr ⟨lab2, List.mem_cons_of_mem lab h1, h2⟩
      · rw [if_neg hseen] at hr
        by_cases hfull : maxRoutes ≤ (acc ++ [segs]).length
        · rw [if_pos hfull] at hr
          rcases List.mem_append.1 hr with h | h
          · exact Or.inl h
          · rw [List.mem_singleton] at h
            subst h
            exact Or.inr ⟨lab, List.mem_cons_self lab rest, hrec⟩
        · rw [if_neg hfull] at hr
          rcases ih _ _ r hr with h | ⟨lab2, h1, h2⟩
          · rcases List.mem_append.1 h with h | h
            · exact Or.inl h
            · rw [List.mem_singleton] at h
              subst h
              exact Or.inr ⟨lab, List.mem_cons_self lab rest, hrec⟩
          · exact Or.inr ⟨lab2, List.mem_cons_of_mem lab h1, h2⟩

theorem recoverLoop_length_le (stopName : String → String) (maxRoutes : Nat) :
    ∀ (labs : List Label) (seen : List (List (String × String × Int × Int)))
      (acc : List (List RouteSegment)),
      (recoverLoop stopName maxRoutes labs seen acc).length ≤
        acc.length + labs.length := by
  intro labs
  induction labs with
  | nil => intro seen acc; simp [recoverLoop]
  | cons lab rest ih =>
    intro seen acc
    rw [recoverLoop]
    rcases hrec : reconstructRoute stopName lab with _ | segs
    · have := ih seen acc
      simp only [List.length_cons]
      omega
    · simp only
      by_cases hseen : routeKey segs ∈ seen
      · rw [if_pos hseen]
        have := ih seen acc
        simp only [List.length_cons]
        omega
      · rw [if_neg hseen]
        by_cases hfull : maxRoutes ≤ (acc ++ [segs]).length
        · rw [if_pos hfull]
          simp only [List.length_append, List.length_cons, List.length_nil, List.length_cons]
          omega
        · rw [if_neg hfull]
          have := ih (routeKey segs :: seen) (acc ++ [segs])
          simp only [List.length_append, List.length_cons, List.length_nil, List.length_cons] at this ⊢
          omega

theorem recoverLoop_all_distinct (stopName : String → String) (maxRoutes : Nat) :
    ∀ (labs : List Label) (seen : List (List (String × String × Int × Int)))
      (acc : List (List RouteSegment)),
      (∀ lab ∈ labs, (reconstructRoute stopName lab).isSome) →
      ((labs.filterMap (reconstructRoute stopName)).map routeKey).Nodup →
      (∀ k ∈ (labs.filterMap (reconstructRoute stopName)).map routeKey, k ∉ seen) →
      acc.length + labs.length ≤ maxRoutes →
      (recoverLoop stopName maxRoutes labs seen acc).length =
        acc.length + labs.length := by
  intro labs
  induction labs with
  | nil => intro seen acc _ _ _ _; simp [recoverLoop]
  | cons lab rest ih =>
    intro seen acc hall hnodup hseen hbound
    rcases hsome : reconstructRoute stopName lab with _ | segs
    · have := hall lab (List.mem_cons_self lab rest)
      rw [hsome] at this
      simp at this
    · have hfm : (lab :: rest).filterMap (reconstructRoute stopName) =
          segs :: rest.filterMap (reconstructRoute stopName) := by
        rw [List.filterMap_cons, hsome]
      rw [hfm, List.map_cons] at hnodup hseen
      have hkey_notin : routeKey segs ∉ seen :=
        hseen (routeKey segs) (List.mem_cons_self _ _)
      rw [recoverLoop, hsome]
      simp only
      rw [if_neg hkey_notin]
      by_cases hfull : maxRoutes ≤ (acc ++ [segs]).length
      · rw [if_pos hfull]
        simp only [List.length_append, List.length_cons, List.length_nil, List.length_cons] at *
        omega
      · rw [if_neg hfull]
        have hrest := ih (routeKey segs :: seen) (acc ++ [segs])
          (fun l hl => hall l (List.mem_cons_of_mem lab hl))
          (List.nodup_cons.1 hnodup).2
          (by
            intro k hk
            intro habs
            rw [List.mem_cons] at habs
            rcases habs with rfl | habs
            · exact (List.nodup_cons.1 hnodup).1 hk
            · exact hseen k (List.mem_cons_of_mem _ hk) habs)
          (by
            simp only [List.length_append, List.length_cons, List.length_nil,
              List.length_cons] at hbound ⊢
            omega)
        rw [hrest]
        simp only [List.length_append, List.length_cons, List.length_nil, List.length_cons]
        omega

theorem reconstruct_tripChain (stopName : String → String) (l : Label)
    (hch : chainedLabel l) (segs : List RouteSegment)
    (h : reconstructRoute stopName l = some segs) :
    List.Chain' (fun a b : RouteSegment => a.trip_id ≠ b.trip_id) segs := by
  rw [reconstructRoute] at h
  rcases hrev : (collectConnsRev l).reverse with _ | ⟨lk, ls⟩
  · rw [hrev] at h
    simp at h
  · rw [hrev] at h
    simp only [Option.some_inj] at h
    subst h
    have hchain : List.Chain' linkChain (lk :: ls) := by
      rw [← hrev, List.chain'_reverse]
      exact collect_chain l hch
    have hopt := optimize_chainTrip lk ls hchain
    have hproj := mkSegs_proj stopName none (optimizeLinks lk ls)
    have h0 : List.Chain' (fun p q : String × Int × Int => p.1 ≠ q.1)
        ((mkSegmentsAux stopName none (optimizeLinks lk ls)).map
          (fun s => (s.trip_id, s.departure_time, s.arrival_time))) := by
      rw [hproj, List.chain'_map]
      exact hopt.imp (fun a b hab => hab.2)
    rw [List.chain'_map] at h0
    exact h0

/-- Membership of a returned route traced back to a destination label of the
final scan state. -/
theorem findMultipleRoutes_label (stopName : String → String) (conns : List Conn)
    (startStop endStop : String) (startTime : Int) (maxRoutes : Nat)
    (startIds endIds : List String) (route : List RouteSegment)
    (hroute : route ∈ findMultipleRoutes stopName conns startStop endStop
      startTime maxRoutes startIds endIds) :
    ∃ lab, (∃ e ∈ effectiveIds endIds endStop,
        lab ∈ finalState conns startStop endStop startTime maxRoutes startIds endIds e) ∧
      reconstructRoute stopName lab = some route := by
  rw [findMultipleRoutes] at hroute
  by_cases hempty : (gatherEndLabels (effectiveIds endIds endStop)
      (finalState conns startStop endStop startTime maxRoutes startIds endIds)).isEmpty
  · rw [if_pos hempty] at hroute
    simp at hroute
  · rw [if_neg hempty] at hroute
    rcases recoverLoop_mem stopName maxRoutes _ [] [] route hroute with h | ⟨lab, hlab, hrec⟩
    · simp at h
    · refine ⟨lab, ?_, hrec⟩
      have hmem : lab ∈ gatherEndLabels (effectiveIds endIds endStop)
          (finalState conns startStop endStop startTime maxRoutes startIds endIds) := by
        have h1 : lab ∈ sortLabels (gatherEndLabels (effectiveIds endIds endStop)
            (finalState conns startStop endStop startTime maxRoutes startIds endIds)) :=
          List.mem_of_mem_take hlab
        exact (List.perm_insertionSort _ _).subset h1
      rw [gatherEndLabels] at hmem
      exact List.mem_flatMap.1 hmem

/-! ## C1 : itinerary time monotonicity -/

/-- C1: for connection arrays whose every connection arrives strictly after
it departs (as `_build_connections` guarantees via its `arr_time > dep_time`
filter), every itinerary returned by `_find_multiple_routes` has
`arrival_time > departure_time` within each segment and
`departure_time ≥ previous arrival_time` across consecutive segments. -/
theorem c1_itinerary_times (stopName : String → String) (conns : List Conn)
    (startStop endStop : String) (startTime : Int) (maxRoutes : Nat)
    (startIds endIds : List String)
    (hvalid : ∀ c ∈ conns, c.dep_time < c.arr_time)
    (route : List RouteSegment)
    (hroute : route ∈ findMultipleRoutes stopName conns startStop endStop
      startTime maxRoutes startIds endIds) :
    (∀ seg ∈ route, seg.departure_time < seg.arrival_time) ∧
    List.Chain' (fun a b : RouteSegment => a.arrival_time ≤ b.departure_time) route := by
  obtain ⟨lab, ⟨e, he, hmem⟩, hrec⟩ := findMultipleRoutes_label stopName conns
    startStop endStop startTime maxRoutes startIds endIds route hroute
  have hinv : stInv (fun l => chainedLabel l ∧ strictLabel l)
      (finalState conns startStop endStop startTime maxRoutes startIds endIds) := by
    rw [finalState]
    apply scanConns_inv
    · intro c hc lab2 hP hstop harr
      exact ⟨chainedLabel_step c lab2 hP.1 hstop harr,
        strictLabel_step c lab2 hP.2 (hvalid c hc)⟩
    · apply initState_inv
      intro sid
      exact ⟨True.intro, True.intro⟩
  have hwf := hinv e lab hmem
  exact ⟨(reconstruct_good stopName lab hwf.1.1 hwf.1.2 route hrec).1,
    (reconstruct_good stopName lab hwf.1.1 hwf.1.2 route hrec).2.1⟩

/-- Witness for C1 at a two-leg network: the connections are strictly
increasing in time, the query returns exactly one itinerary, and the
theorem's conclusions hold for every returned itinerary. -/
theorem c1_itinerary_times_witness :
    (∀ c ∈ [(⟨"T1", "A", "B", 10, 20, "R"⟩ : Conn), ⟨"T2", "B", "C", 30, 40, "S"⟩],
      c.dep_time < c.arr_time) ∧
    (findMultipleRoutes (fun _ => "")
      [⟨"T1", "A", "B", 10, 20, "R"⟩, ⟨"T2", "B", "C", 30, 40, "S"⟩]
      "A" "C" 0 2 [] []).length = 1 ∧
    (∀ route ∈ findMultipleRoutes (fun _ => "")
        [⟨"T1", "A", "B", 10, 20, "R"⟩, ⟨"T2", "B", "C", 30, 40, "S"⟩]
        "A" "C" 0 2 [] [],
      (∀ seg ∈ route, seg.departure_time < seg.arrival_time) ∧
      List.Chain' (fun a b : RouteSegment => a.arrival_time ≤ b.departure_time) route) :=
  ⟨by decide, by decide, fun route hroute =>
    c1_itinerary_times (fun _ => "")
      [⟨"T1", "A", "B", 10, 20, "R"⟩, ⟨"T2", "B", "C", 30, 40, "S"⟩]
      "A" "C" 0 2 [] [] (by decide) route hroute⟩

/-! ## C2 : no two adjacent segments share a trip -/

/-- C2: every itinerary returned by `_find_multiple_routes` has no two
adjacent segments with the same `trip_id`: the boarding guard of the scan
makes every label chain link exactly (`prev.arr_stop = next.dep_stop`,
`prev.arr_time ≤ next.dep_time`), so the reconstruction merge absorbs every
consecutive same-trip pair and adjacent merged segments always differ in
trip. -/
theorem c2_adjacent_trips_distinct (stopName : String → String) (conns : List Conn)
    (startStop endStop : String) (startTime : Int) (maxRoutes : Nat)
    (startIds endIds : List String) (route : List RouteSegment)
    (hroute : route ∈ findMultipleRoutes stopName conns startStop endStop
      startTime maxRoutes startIds endIds) :
    List.Chain' (fun a b : RouteSegment => a.trip_id ≠ b.trip_id) route := by
  obtain ⟨lab, ⟨e, he, hmem⟩, hrec⟩ := findMultipleRoutes_label stopName conns
    startStop endStop startTime maxRoutes startIds endIds route hroute
  have hinv : stInv chainedLabel
      (finalState conns startStop endStop startTime maxRoutes startIds endIds) := by
    rw [finalState]
    apply scanConns_inv
    · intro c hc lab2 hP hstop harr
      exact chainedLabel_step c lab2 hP hstop harr
    · apply initState_inv
      intro sid
      exact True.intro
  exact reconstruct_tripChain stopName lab (hinv e lab hmem).1 route hrec

/-- Witness for C2 at a two-trip interchange: the returned itinerary has two
segments on distinct trips. -/
theorem c2_adjacent_trips_distinct_witness :
    (findMultipleRoutes (fun _ => "")
      [⟨"T1", "A", "B", 10, 20, "R"⟩, ⟨"T1", "B", "C", 21, 25, "R"⟩,
        ⟨"T2", "C", "D", 30, 40, "S"⟩]
      "A" "D" 0 1 [] []).length = 1 ∧
    (∀ route ∈ findMultipleRoutes (fun _ => "")
        [⟨"T1", "A", "B", 10, 20, "R"⟩, ⟨"T1", "B", "C", 21, 25, "R"⟩,
          ⟨"T2", "C", "D", 30, 40, "S"⟩]
        "A" "D" 0 1 [] [],
      List.Chain' (fun a b : RouteSegment => a.trip_id ≠ b.trip_id) route) :=
  ⟨by decide, fun route hroute =>
    c2_adjacent_trips_distinct (fun _ => "")
      [⟨"T1", "A", "B", 10, 20, "R"⟩, ⟨"T1", "B", "C", 21, 25, "R"⟩,
        ⟨"T2", "C", "D", 30, 40, "S"⟩]
      "A" "D" 0 1 [] [] route hroute⟩

/-! ## C3 : recovery truncation -/

/-- C3 counterexample: with three connections T1, T2 (same stops and times)
and T3 (later, distinct key) from A to B and K = 2, the destination labels
gathered after the scan yield two distinct reconstructible itineraries, yet
only one itinerary is returned: the recovery loop walks only the first
K = 2 labels (the two duplicates) before deduplicating, so it never reaches
the third label. -/
theorem c3_recovery_counterexample :
    (distinctItinKeys (fun _ => "")
      (gatherEndLabels (effectiveIds [] "B")
        (finalState [⟨"T1", "A", "B", 10, 20, "R"⟩, ⟨"T2", "A", "B", 10, 20, "R"⟩,
          ⟨"T3", "A", "B", 15, 25, "R"⟩] "A" "B" 0 2 [] []))).length = 2 ∧
    (findMultipleRoutes (fun _ => "")
      [⟨"T1", "A", "B", 10, 20, "R"⟩, ⟨"T2", "A", "B", 10, 20, "R"⟩,
        ⟨"T3", "A", "B", 15, 25, "R"⟩] "A" "B" 0 2 [] []).length = 1 :=
  ⟨by decide, by decide⟩

/-- C3 (amended): after the scan, recovery sorts the gathered destination
labels by arrival ascending but walks only the first K of them,
deduplicating by the per-segment key; hence at most K itineraries are
returned, and exactly as many as those first K labels produce — all K
precisely when the first K labels all reconstruct and have pairwise
distinct keys, not whenever the gathered labels as a whole admit K distinct
itineraries. -/
theorem c3_recovery_amended (stopName : String → String) (conns : List Conn)
    (startStop endStop : String) (startTime : Int) (maxRoutes : Nat)
    (startIds endIds : List String) (allEnd cand : List Label)
    (hall : allEnd = gatherEndLabels (effectiveIds endIds endStop)
      (finalState conns startStop endStop startTime maxRoutes startIds endIds))
    (hcand : cand = (sortLabels allEnd).take maxRoutes) :
    (findMultipleRoutes stopName conns startStop endStop startTime maxRoutes
      startIds endIds).length ≤ maxRoutes ∧
    (¬allEnd.isEmpty →
      (∀ lab ∈ cand, (reconstructRoute stopName lab).isSome) →
      ((cand.filterMap (reconstructRoute stopName)).map routeKey).Nodup →
      (findMultipleRoutes stopName conns startStop endStop startTime maxRoutes
        startIds endIds).length = cand.length) := by
  subst hall
  subst hcand
  constructor
  · rw [findMultipleRoutes]
    by_cases hempty : (gatherEndLabels (effectiveIds endIds endStop)
        (finalState conns startStop endStop startTime maxRoutes startIds endIds)).isEmpty
    · rw [if_pos hempty]
      simp
    · rw [if_neg hempty]
      have h1 := recoverLoop_length_le stopName maxRoutes
        ((sortLabels (gatherEndLabels (effectiveIds endIds endStop)
          (finalState conns startStop endStop startTime maxRoutes startIds endIds))).take
          maxRoutes) [] []
      have h2 := List.length_take_le maxRoutes
        (sortLabels (gatherEndLabels (effectiveIds endIds endStop)
          (finalState conns startStop endStop startTime maxRoutes startIds endIds)))
      simp only [List.length_nil] at h1
      omega
  · intro hne hsome hnodup
    rw [findMultipleRoutes, if_neg hne]
    have h2 := List.length_take_le maxRoutes
      (sortLabels (gatherEndLabels (effectiveIds endIds endStop)
        (finalState conns startStop endStop startTime maxRoutes startIds endIds)))
    have := recoverLoop_all_distinct stopName maxRoutes
      ((sortLabels (gatherEndLabels (effectiveIds endIds endStop)
        (finalState conns startStop endStop startTime maxRoutes startIds endIds))).take
        maxRoutes) [] [] hsome hnodup (by intro k _ habs; simp at habs)
      (by simp only [List.length_nil]; omega)
    rw [this]
    simp

/-- Witness for C3 (amended) at two time-distinct connections and K = 2:
both candidate labels reconstruct with distinct keys, and exactly two
itineraries are returned. -/
theorem c3_recovery_amended_witness :
    (findMultipleRoutes (fun _ => "")
      [⟨"T1", "A", "B", 10, 20, "R"⟩, ⟨"T3", "A", "B", 15, 25, "R"⟩]
      "A" "B" 0 2 [] []).length ≤ 2 ∧
    (findMultipleRoutes (fun _ => "")
      [⟨"T1", "A", "B", 10, 20, "R"⟩, ⟨"T3", "A", "B", 15, 25, "R"⟩]
      "A" "B" 0 2 [] []).length =
      ((sortLabels (gatherEndLabels (effectiveIds [] "B")
        (finalState [⟨"T1", "A", "B", 10, 20, "R"⟩, ⟨"T3", "A", "B", 15, 25, "R"⟩]
          "A" "B" 0 2 [] []))).take 2).length :=
  ⟨(c3_recovery_amended (fun _ => "")
      [⟨"T1", "A", "B", 10, 20, "R"⟩, ⟨"T3", "A", "B", 15, 25, "R"⟩]
      "A" "B" 0 2 [] [] _ _ rfl rfl).1,
   (c3_recovery_amended (fun _ => "")
      [⟨"T1", "A", "B", 10, 20, "R"⟩, ⟨"T3", "A", "B", 15, 25, "R"⟩]
      "A" "B" 0 2 [] [] _ _ rfl rfl).2 (by decide) (by decide) (by decide)⟩
